import Mathlib

/-!
Verification development for `flip.go` (package `BitFlip`)

A shallow embedding of the package: its package-level variables become a
record that every function receives and returns, the `*big.Int` objects live
in an explicit heap (the code stores and returns pointers), the clock and the
random generator are inputs, and a run-time panic is an `Except.error`.
-/

namespace EthBitFlip

/-! ## float64 -/

/-- A float64 value: NaN, an infinity, or a finite value given by its sign and
its magnitude (`mag ≥ 0`; `fin true 0` is the negative zero). -/
inductive F64 where
  | nan
  | inf (neg : Bool)
  | fin (neg : Bool) (mag : ℚ)
  deriving DecidableEq

/-- The binary logarithm of `n`, rounded down, in at most `fuel` halvings. -/
def natLog2Aux : Nat → Nat → Nat
  | 0, _ => 0
  | fuel + 1, n => if 2 ≤ n then natLog2Aux fuel (n / 2) + 1 else 0

/-- The binary logarithm of `n`, rounded down (0 for `n = 0`). -/
def natLog2 (n : Nat) : Nat := natLog2Aux n n

/-- The exponent `e` with `2^e ≤ m < 2^(e+1)`, for `m > 0`. -/
def ilog2 (m : ℚ) : Int :=
  let e0 : Int := (natLog2 m.num.natAbs : Int) - (natLog2 m.den : Int)
  if (2 : ℚ) ^ e0 ≤ m then e0 else e0 - 1

/-- Rounding of a rational to the nearest integer, ties to even. -/
def roundEven (x : ℚ) : Int :=
  let f : Int := x.floor
  let r : ℚ := x - f
  if r < 1 / 2 then f
  else if 1 / 2 < r then f + 1
  else if f % 2 = 0 then f else f + 1

/-- IEEE 754 binary64 rounding (to nearest, ties to even) of the exact
magnitude `m ≥ 0` of a result of sign `neg`: 53 significant bits, least
exponent -1022, overflow to the infinity. -/
def F64.round (neg : Bool) (m : ℚ) : F64 :=
  if m = 0 then F64.fin neg 0
  else
    let e : Int := max (ilog2 m) (-1022)
    let ulp : ℚ := (2 : ℚ) ^ (e - 52)
    let r : ℚ := (roundEven (m / ulp) : ℚ) * ulp
    if (2 : ℚ) ^ (1024 : Int) ≤ r then F64.inf neg else F64.fin neg r

/-- The float64 quotient `a / b`. -/
def F64.div : F64 → F64 → F64
  | F64.nan, _ => F64.nan
  | _, F64.nan => F64.nan
  | F64.inf _, F64.inf _ => F64.nan
  | F64.inf s, F64.fin t _ => F64.inf (xor s t)
  | F64.fin s _, F64.inf t => F64.fin (xor s t) 0
  | F64.fin s a, F64.fin t b =>
    if b = 0 then (if a = 0 then F64.nan else F64.inf (xor s t))
    else F64.round (xor s t) (a / b)

/-- The float64 product `a * b`. -/
def F64.mul : F64 → F64 → F64
  | F64.nan, _ => F64.nan
  | _, F64.nan => F64.nan
  | F64.inf s, F64.inf t => F64.inf (xor s t)
  | F64.inf s, F64.fin t b => if b = 0 then F64.nan else F64.inf (xor s t)
  | F64.fin s a, F64.inf t => if a = 0 then F64.nan else F64.inf (xor s t)
  | F64.fin s a, F64.fin t b => F64.round (xor s t) (a * b)

/-- Go's `math.Floor`: the greatest integer value not above `x`; NaN, the
infinities and the zeros are returned as they are. -/
def F64.floor : F64 → F64
  | F64.nan => F64.nan
  | F64.inf s => F64.inf s
  | F64.fin false m => F64.fin false ((m.floor : Int) : ℚ)
  | F64.fin true m => F64.fin true ((m.ceil : Int) : ℚ)

/-- The real value of a finite float64. -/
def F64.val (neg : Bool) (mag : ℚ) : ℚ := if neg then -mag else mag

/-- Go's `==` on float64: NaN equals nothing, the two zeros are equal. -/
def F64.eq : F64 → F64 → Bool
  | F64.nan, _ => false
  | _, F64.nan => false
  | F64.inf s, F64.inf t => s == t
  | F64.inf _, F64.fin _ _ => false
  | F64.fin _ _, F64.inf _ => false
  | F64.fin s a, F64.fin t b => decide (F64.val s a = F64.val t b)

/-- The conversion `int64(x)` of a float64: truncation toward zero when the
value fits; for NaN, the infinities and values out of range the Go
specification leaves the result to the implementation, and the amd64 result
(the least int64) is taken. -/
def F64.toInt64 : F64 → Int
  | F64.nan => -(2 : Int) ^ 63
  | F64.inf _ => -(2 : Int) ^ 63
  | F64.fin neg m =>
    let t : Int := if neg then -(m.floor : Int) else (m.floor : Int)
    if -(2 : Int) ^ 63 ≤ t ∧ t < (2 : Int) ^ 63 then t else -(2 : Int) ^ 63

/-- One Bernoulli trial of `BitFlip`, from its two draws:
`math.Floor(rand.Float64()/decRate) == math.Floor(rand.Float64()/decRate)`. -/
def trial (decRate u1 u2 : F64) : Bool :=
  F64.eq (F64.floor (F64.div u1 decRate)) (F64.floor (F64.div u2 decRate))

/-! ## int, time, big.Int -/

/-- Go's `int` (64 bits, two's complement): the value an arithmetic result
wraps to. -/
def wrapInt64 (x : Int) : Int := (x + 2 ^ 63) % 2 ^ 64 - 2 ^ 63

/-- `t.Sub(u)` of package `time` on instants given in nanoseconds (the zero
`time.Time` is 0): the difference, saturated to the range of `time.Duration`
(an int64 count of nanoseconds). -/
def timeSub (t u : Int) : Int :=
  if t - u < -(2 : Int) ^ 63 then -(2 : Int) ^ 63
  else if (2 : Int) ^ 63 - 1 < t - u then (2 : Int) ^ 63 - 1
  else t - u

/-- `time.Since(u)`, with `now` the instant `time.Now()` returns. -/
def timeSince (now u : Int) : Int := timeSub now u

/-- Big-endian base-256 digits of `n` pushed in front of `acc`; `fuel` bounds
the number of digits. -/
def natBytesAux : Nat → Nat → List Nat → List Nat
  | 0, _, acc => acc
  | fuel + 1, n, acc =>
    if n = 0 then acc else natBytesAux fuel (n / 256) (n % 256 :: acc)

/-- `x.Bytes()` of `math/big`: the absolute value of `x` as a big-endian byte
slice without leading zero bytes (empty for 0). -/
def Bytes (x : Int) : List Nat := natBytesAux x.natAbs x.natAbs []

/-- `z.SetBytes(buf)` of `math/big`: `buf` read as a big-endian unsigned
integer. -/
def SetBytes (buf : List Nat) : Int :=
  ((buf.foldl (fun acc b => acc * 256 + b) 0 : Nat) : Int)

/-- `U256` of go-ethereum's `common/math` (`x.And(x, 2^256 - 1)` on a
`big.Int`, which is two's complement on a negative `x`). -/
def U256 (x : Int) : Int := x % 2 ^ 256

/-- One lower-case hexadecimal digit. -/
def hexDigit (n : Nat) : Char :=
  if n < 10 then Char.ofNat (48 + n) else Char.ofNat (87 + n)

/-- `hex.EncodeToString`: two hexadecimal digits per byte. -/
def hexEncode (bs : List Nat) : String :=
  String.mk (bs.flatMap (fun b => [hexDigit (b / 16), hexDigit (b % 16)]))

/-! ## The data types of the package -/

/-- The `*big.Int` objects of the program; a pointer is an index of the list,
and an index outside it is the nil pointer. -/
abbrev Heap := List Int

structure ErrorData where
  /-- Pointer to a `big.Int`. -/
  PreviousValue : Nat
  PreviousByte : String
  IntBits : List Nat
  /-- Pointer to a `big.Int`. -/
  ErrorValue : Nat
  ErrorByte : String
  /-- Pointer to a `big.Int`. -/
  DeltaValue : Nat
  /-- The instant that the code formats into the timestamp string. -/
  When : Int
  deriving DecidableEq

structure Iteration where
  IterationNum : Int
  ErrorData : ErrorData
  deriving DecidableEq

structure ErrorRate where
  Rate : F64
  FlipData : List Iteration
  deriving DecidableEq

structure Output where
  Data : List ErrorRate
  deriving DecidableEq

/-- The package-level variables. -/
structure Globals where
  mstrTestType : String
  mlngIterations : Int
  mlngVarsChanged : Int
  mdurNanoSeconds : Int
  mtimStartTime : Int
  marrErrRates : List F64
  mintRateIndex : Nat
  deriving DecidableEq

/-- The package-level variables when the program starts: the zero values,
and `mintRateIndex = 0`. -/
def Globals.init : Globals :=
  { mstrTestType := "", mlngIterations := 0, mlngVarsChanged := 0,
    mdurNanoSeconds := 0, mtimStartTime := 0, marrErrRates := [],
    mintRateIndex := 0 }

/-- The dynamic value passed as `pITestCount interface{}`. -/
inductive TestCount where
  | int (n : Int)
  | float64 (x : F64)
  | other
  deriving DecidableEq

deriving instance DecidableEq for Except

/-- Run-time panics. -/
inductive Panic where
  | typeAssertion
  | indexOutOfRange
  | nilDereference
  deriving DecidableEq

/-! ## `Initalize` -/

/-- What a call of `Initalize` leaves behind. -/
structure InitalizeResult where
  /-- The package-level variables after the call. -/
  g : Globals
  /-- The parameter `pOutput` when the function returns. Go passes the struct
  `Output` by value, so this is the callee's own copy. -/
  pOutput : Output
  /-- The `Output` variable of the caller that was passed as argument, after
  the call: the callee has no access to it (an `append` of the callee may
  write into spare capacity behind the slice, never into its elements or its
  length). -/
  callerOutput : Output
  deriving DecidableEq

/-- The `switch` of `Initalize`; `now` is the instant `time.Now()` returns. -/
def setLimit (g : Globals) (now : Int) (pITestCount : TestCount) :
    Except Panic Globals :=
  if g.mstrTestType = "iteration" then
    match pITestCount with
    | TestCount.int n => Except.ok { g with mlngIterations := n }
    | _ => Except.error Panic.typeAssertion
  else if g.mstrTestType = "variable" then
    match pITestCount with
    | TestCount.int n => Except.ok { g with mlngVarsChanged := n }
    | _ => Except.error Panic.typeAssertion
  else
    match pITestCount with
    | TestCount.float64 x =>
      Except.ok { g with
        mtimStartTime := now
        mdurNanoSeconds := F64.toInt64 (F64.mul x (F64.fin false 1000000000)) }
    | _ => Except.error Panic.typeAssertion

/-- The function `Initalize(pstrTestType, pITestCount, parrErrRates, pOutput)`,
run on the package-level variables `g`. -/
def Initalize (g : Globals) (now : Int) (pstrTestType : String)
    (pITestCount : TestCount) (parrErrRates : List F64) (pOutput : Output) :
    Except Panic InitalizeResult :=
  match setLimit { g with mstrTestType := pstrTestType } now pITestCount with
  | Except.error e => Except.error e
  | Except.ok g1 =>
    let flipData : List Iteration := []
    let pOutput1 : Output :=
      parrErrRates.foldl
        (fun out errRate => { out with Data := out.Data ++ [ErrorRate.mk errRate flipData] })
        pOutput
    Except.ok { g := g1, pOutput := pOutput1, callerOutput := pOutput }

/-! ## `BitFlip` -/

/-- The condition of the `if` that opens `BitFlip`. -/
def stopCheck (g : Globals) (plngFlipCount now : Int) : Bool :=
  decide (plngFlipCount > g.mlngIterations) ||
    decide (plngFlipCount > g.mlngVarsChanged) ||
    decide (timeSince now g.mtimStartTime ≥ g.mdurNanoSeconds)

/-- The variables the flipping loop updates. -/
structure LoopVars where
  plngFlipCount : Int
  arrBits : List Nat
  bytNum : List Nat
  deriving DecidableEq

/-- The body of the inner loop, at byte index `i` and bit offset `j`; `byt` is
the loop variable of the outer `range`. Every trial takes two draws, so the
trial at `(i, j)` takes draws number `2 (8 i + j)` and `2 (8 i + j) + 1` of
the call. The stored byte is a `uint8`. -/
def flipStep (decRate : F64) (draws : Nat → F64) (i byt : Nat) (s : LoopVars)
    (j : Nat) : LoopVars :=
  if trial decRate (draws (2 * (i * 8 + j))) (draws (2 * (i * 8 + j) + 1)) then
    { plngFlipCount := wrapInt64 (s.plngFlipCount + 1)
      arrBits := s.arrBits ++ [i * 8 + j]
      bytNum := s.bytNum.set i ((byt ^^^ (1 <<< j)) % 256) }
  else s

/-- One iteration of the outer loop: `byt` is read from the slice, then the
inner loop runs for `j = 0, ..., 7`. -/
def flipByte (decRate : F64) (draws : Nat → F64) (s : LoopVars) (i : Nat) :
    LoopVars :=
  (List.range 8).foldl (flipStep decRate draws i (s.bytNum.getD i 0)) s

/-- The loop `for i, byt := range bytNum`. -/
def flipLoop (decRate : F64) (draws : Nat → F64) (bytNum : List Nat)
    (plngFlipCount : Int) : LoopVars :=
  (List.range bytNum.length).foldl (flipByte decRate draws)
    { plngFlipCount := plngFlipCount, arrBits := [], bytNum := bytNum }

/-- What the environment supplies to one call of `BitFlip`. -/
structure Env where
  /-- The instant `time.Now()` returns inside `time.Since`. -/
  now : Int
  /-- The successive results of `rand.Float64()`. -/
  draws : Nat → F64
  /-- The instant `time.Now()` returns for the timestamp. -/
  stamp : Int

/-- What a call of `BitFlip` that returns leaves behind. -/
structure Result where
  g : Globals
  heap : Heap
  /-- The receiver `*this` after the call. -/
  this : Output
  /-- The returned pointer. -/
  ret : Nat
  deriving DecidableEq

/-- The method `(this *Output) BitFlip(pbigNum, plngFlipCount)`, run on the
package-level variables `g` and the heap `heap`. The seeding of the generator
is covered by taking the draws from `env`; the console output of the method is
not part of the state. A nil `pbigNum` panics where it is first dereferenced,
after the bucket has been read. -/
def BitFlip (g : Globals) (heap : Heap) (this : Output) (pbigNum : Nat)
    (plngFlipCount : Int) (env : Env) : Except Panic Result :=
  if stopCheck g plngFlipCount env.now then
    let g1 : Globals :=
      if g.mintRateIndex < g.marrErrRates.length then
        { g with mintRateIndex := g.mintRateIndex + 1 }
      else g
    Except.ok { g := g1, heap := heap, this := this, ret := pbigNum }
  else
    match this.Data.get? g.mintRateIndex with
    | none => Except.error Panic.indexOutOfRange
    | some bucket =>
      match heap.get? pbigNum with
      | none => Except.error Panic.nilDereference
      | some v =>
        let decRate := bucket.Rate
        -- bigPrevNum: a new big.Int holding the value of pbigNum, then U256
        let bigPrevNum := heap.length
        let heap1 := heap ++ [U256 v]
        let bytPrevNum := Bytes (heap1.getD bigPrevNum 0)
        let bytNum := Bytes (heap1.getD pbigNum 0)
        let l := flipLoop decRate env.draws bytNum plngFlipCount
        -- pbigNum.SetBytes(bytNum)
        let heap2 := heap1.set pbigNum (SetBytes l.bytNum)
        -- big.NewInt(0).Sub(pbigNum, bigPrevNum)
        let delta := heap2.length
        let heap3 := heap2 ++ [heap2.getD pbigNum 0 - heap2.getD bigPrevNum 0]
        let iteration : Iteration :=
          { IterationNum := l.plngFlipCount
            ErrorData :=
              { PreviousValue := bigPrevNum
                PreviousByte := hexEncode bytPrevNum
                IntBits := l.arrBits
                ErrorValue := pbigNum
                ErrorByte := hexEncode l.bytNum
                DeltaValue := delta
                When := env.stamp } }
        let this1 : Output :=
          { Data := this.Data.set g.mintRateIndex
              { bucket with FlipData := bucket.FlipData ++ [iteration] } }
        Except.ok { g := g, heap := heap3, this := this1, ret := pbigNum }

/-! ## `MarshalIndent` -/

/-- What `json.MarshalIndent` of `encoding/json` returns: the text with a nil
error, or a nil slice (the empty text) with an error. -/
structure JsonResult where
  byt : String
  err : Option String
  deriving DecidableEq

/-- The method `(this Output) MarshalIndent()`. The argument `jsonMarshalIndent`
stands for the library call `json.MarshalIndent(this, "", "\t")`, which reads
the numbers behind the pointers of the events. -/
def MarshalIndent (jsonMarshalIndent : Output → JsonResult) (this : Output) : String :=
  let r := jsonMarshalIndent this
  if r.err ≠ none then r.byt else "err"

/-! ## The stopping check as the specification words it -/

/-- The stopping check in the words of the specification: stop exactly when
(mode "iteration" and the running flip count exceeds the iteration limit) or
(mode "variable" and the processed-variable count exceeds the variable limit)
or (time-based mode and the time elapsed since configuration exceeds the
duration). -/
def specStop (g : Globals) (flipCount varCount now : Int) : Bool :=
  (decide (g.mstrTestType = "iteration") && decide (flipCount > g.mlngIterations)) ||
  (decide (g.mstrTestType = "variable") && decide (varCount > g.mlngVarsChanged)) ||
  (decide (g.mstrTestType ≠ "iteration" ∧ g.mstrTestType ≠ "variable") &&
    decide (timeSince now g.mtimStartTime > g.mdurNanoSeconds))

/-! ## The mutation as the specification words it -/

/-- The bytes the specification describes: `bytes` with, for each recorded
global index `8 i + j` in turn, bit `j` of byte `i` inverted. -/
def flipRecorded (bytes : List Nat) (arrBits : List Nat) : List Nat :=
  arrBits.foldl
    (fun bs k => bs.set (k / 8) ((bs.getD (k / 8) 0) ^^^ (1 <<< (k % 8)))) bytes

/-! ## Runs of several calls -/

/-- One call `this.BitFlip(pbigNum, plngFlipCount)` and what the environment
supplies to it. -/
structure Call where
  pbigNum : Nat
  plngFlipCount : Int
  env : Env

/-- The state of the program between two calls: the package-level variables,
the heap and the `Output` the calls are made on. -/
structure Prog where
  g : Globals
  heap : Heap
  out : Output
  deriving DecidableEq

/-- One call of `BitFlip` on the program state. -/
def step (s : Prog) (c : Call) : Except Panic Prog :=
  match BitFlip s.g s.heap s.out c.pbigNum c.plngFlipCount c.env with
  | Except.error e => Except.error e
  | Except.ok r => Except.ok { g := r.g, heap := r.heap, out := r.this }

/-- A sequence of calls of `BitFlip`, one after the other. -/
def run (s : Prog) : List Call → Except Panic Prog
  | [] => Except.ok s
  | c :: cs =>
    match step s c with
    | Except.error e => Except.error e
    | Except.ok s1 => run s1 cs

/-- The values of the package-level variables that a program can reach: those
of the start, and those left by a call of `Initalize` or of `BitFlip` that
returns, whatever its arguments. -/
inductive Reachable : Globals → Prop where
  | start : Reachable Globals.init
  | initalize (g : Globals) (now : Int) (pstrTestType : String) (pITestCount : TestCount)
      (parrErrRates : List F64) (pOutput : Output) (i : InitalizeResult) :
      Reachable g →
      Initalize g now pstrTestType pITestCount parrErrRates pOutput = Except.ok i →
      Reachable i.g
  | bitFlip (g : Globals) (heap : Heap) (this : Output) (pbigNum : Nat)
      (plngFlipCount : Int) (env : Env) (r : Result) :
      Reachable g →
      BitFlip g heap this pbigNum plngFlipCount env = Except.ok r →
      Reachable r.g

/-! ## Inputs used in the evaluations -/

/-- An instant of the year 2026, in nanoseconds since the zero `time.Time`. -/
def t2026 : Int := 63900000000000000000

/-- The rate 1. -/
def rateOne : F64 := F64.fin false 1

/-- The rate 0. -/
def rateZero : F64 := F64.fin false 0

/-- The rate 0.5. -/
def rateHalf : F64 := F64.fin false (1 / 2)

/-- A generator all of whose draws are 0.5. -/
def drawsHalf : Nat → F64 := fun _ => F64.fin false (1 / 2)

/-- A generator whose draws are 0.25 and 0.75 in turn. -/
def drawsApart : Nat → F64 :=
  fun n => if n % 2 = 0 then F64.fin false (1 / 4) else F64.fin false (3 / 4)

/-- A generator with which the first two trials of rate 0.5 succeed (both
draws 0.25) and every later one fails (draws 0.25 and 0.75). -/
def drawsTwoHits : Nat → F64 :=
  fun n => if n < 4 then F64.fin false (1 / 4)
    else if n % 2 = 0 then F64.fin false (1 / 4) else F64.fin false (3 / 4)

/-- The package-level variables after `Initalize("time", 1000.0, ...)` at the
instant `t2026` of a fresh program. -/
def gTime : Globals :=
  { mstrTestType := "time", mlngIterations := 0, mlngVarsChanged := 0,
    mdurNanoSeconds := 1000000000000, mtimStartTime := t2026,
    marrErrRates := [], mintRateIndex := 0 }

/-- The package-level variables after `Initalize("iteration", 10, ...)` of a
fresh program. -/
def gIter : Globals :=
  { mstrTestType := "iteration", mlngIterations := 10, mlngVarsChanged := 0,
    mdurNanoSeconds := 0, mtimStartTime := 0,
    marrErrRates := [], mintRateIndex := 0 }

/-- The package-level variables after `Initalize("iteration", 2^63 - 1, ...)`,
`Initalize("variable", 2^63 - 1, ...)` and `Initalize("time", 1000.0, ...)`, the
last one at the instant `t2026`, of a fresh program. -/
def gMax : Globals :=
  { mstrTestType := "time", mlngIterations := 2 ^ 63 - 1, mlngVarsChanged := 2 ^ 63 - 1,
    mdurNanoSeconds := 1000000000000, mtimStartTime := t2026,
    marrErrRates := [], mintRateIndex := 0 }

/-- An `Output` with one bucket of rate `r` and no event. -/
def oneBucket (r : F64) : Output := { Data := [{ Rate := r, FlipData := [] }] }

/-- The environment of a call one second after `t2026`. -/
def envAt (draws : Nat → F64) : Env :=
  { now := t2026 + 1000000000, draws := draws, stamp := t2026 + 1000000001 }

/-! ## Derived definitions used in the statements -/

/-- The event a call that is not stopped records, from the value `v` of the
number on entry. -/
def recorded (heap : Heap) (pbigNum : Nat) (plngFlipCount : Int) (env : Env)
    (decRate : F64) (v : Int) : Iteration :=
  { IterationNum := (flipLoop decRate env.draws (Bytes v) plngFlipCount).plngFlipCount
    ErrorData :=
      { PreviousValue := heap.length
        PreviousByte := hexEncode (Bytes (U256 v))
        IntBits := (flipLoop decRate env.draws (Bytes v) plngFlipCount).arrBits
        ErrorValue := pbigNum
        ErrorByte := hexEncode (flipLoop decRate env.draws (Bytes v) plngFlipCount).bytNum
        DeltaValue := heap.length + 1
        When := env.stamp } }

/-- The recorded indices are increasing and below `m`. -/
def IncreasingBelow (m : Nat) (l : List Nat) : Prop :=
  l.Pairwise (fun a b => a < b) ∧ ∀ x ∈ l, x < m

/-- The highest bit offset below `m` whose trial at byte `i` succeeds, if there
is one. -/
def lastSuccess (decRate : F64) (draws : Nat → F64) (i : Nat) : Nat → Option Nat
  | 0 => none
  | j + 1 =>
    if trial decRate (draws (2 * (i * 8 + j))) (draws (2 * (i * 8 + j) + 1)) then some j
    else lastSuccess decRate draws i j

/-- The byte the loop leaves for the original byte `byt`, from the highest bit
offset whose trial succeeded. -/
def byteAfter (byt : Nat) : Option Nat → Nat
  | none => byt
  | some j => (byt ^^^ (1 <<< j)) % 256

/-! ## Theorems -/

/-! ### Lemmas -/

theorem foldl_fixed {α β : Type} (f : α → β → α) (s : α) :
    ∀ l : List β, (∀ x ∈ l, f s x = s) → l.foldl f s = s := by
  intro l
  induction l with
  | nil => intro _; rfl
  | cons x xs ih =>
    intro h
    have hx : f s x = s := h x (List.mem_cons_self x xs)
    simp only [List.foldl_cons, hx]
    exact ih (fun y hy => h y (List.mem_cons_of_mem x hy))

theorem foldl_invariant {α β : Type} (P : α → Prop) (f : α → β → α)
    (hf : ∀ s x, P s → P (f s x)) :
    ∀ (l : List β) (s : α), P s → P (l.foldl f s) := by
  intro l
  induction l with
  | nil => intro s hs; exact hs
  | cons x xs ih => intro s hs; exact ih (f s x) (hf s x hs)

theorem natBytesAux_foldl (fuel : Nat) :
    ∀ (n : Nat) (acc : List Nat), n ≤ fuel →
      (natBytesAux fuel n acc).foldl (fun a b => a * 256 + b) 0
        = acc.foldl (fun a b => a * 256 + b) n := by
  induction fuel with
  | zero =>
    intro n acc hn
    have h0 : n = 0 := by omega
    subst h0
    rfl
  | succ fuel ih =>
    intro n acc hn
    unfold natBytesAux
    by_cases h0 : n = 0
    · subst h0
      simp
    · simp only [h0, if_false]
      rw [ih (n / 256) (n % 256 :: acc) (by omega)]
      simp only [List.foldl_cons]
      congr 1
      omega

theorem SetBytes_Bytes (x : Int) : SetBytes (Bytes x) = (x.natAbs : Int) := by
  unfold SetBytes Bytes
  rw [natBytesAux_foldl x.natAbs x.natAbs [] (le_refl _)]
  rfl

theorem flipLoop_no_success (decRate : F64) (draws : Nat → F64)
    (bytNum : List Nat) (c : Int)
    (hnone : ∀ i < bytNum.length, ∀ j < 8,
      trial decRate (draws (2 * (i * 8 + j))) (draws (2 * (i * 8 + j) + 1)) = false) :
    flipLoop decRate draws bytNum c
      = { plngFlipCount := c, arrBits := [], bytNum := bytNum } := by
  unfold flipLoop
  apply foldl_fixed
  intro i hi
  unfold flipByte
  apply foldl_fixed
  intro j hj
  unfold flipStep
  rw [hnone i (List.mem_range.mp hi) j (List.mem_range.mp hj)]
  simp

theorem flipStep_unflipped (decRate : F64) (draws : Nat → F64) (b0 : List Nat)
    (i byt : Nat) (s : LoopVars) (j : Nat)
    (hs : s.arrBits = [] → s.bytNum = b0) :
    (flipStep decRate draws i byt s j).arrBits = [] →
      (flipStep decRate draws i byt s j).bytNum = b0 := by
  unfold flipStep
  split
  · intro h
    simp at h
  · exact hs

theorem flipLoop_unflipped (decRate : F64) (draws : Nat → F64)
    (bytNum : List Nat) (c : Int)
    (h : (flipLoop decRate draws bytNum c).arrBits = []) :
    (flipLoop decRate draws bytNum c).bytNum = bytNum := by
  have key : ∀ (l : List Nat) (s : LoopVars),
      (s.arrBits = [] → s.bytNum = bytNum) →
      ((l.foldl (flipByte decRate draws) s).arrBits = [] →
        (l.foldl (flipByte decRate draws) s).bytNum = bytNum) := by
    apply foldl_invariant (fun s : LoopVars => s.arrBits = [] → s.bytNum = bytNum)
    intro s i hs
    unfold flipByte
    exact foldl_invariant (fun s : LoopVars => s.arrBits = [] → s.bytNum = bytNum) _
      (fun s j hs => flipStep_unflipped decRate draws bytNum i _ s j hs) _ s hs
  exact key _ _ (fun _ => rfl) h


theorem BitFlip_not_stopped (g : Globals) (heap : Heap) (this : Output)
    (pbigNum : Nat) (plngFlipCount : Int) (env : Env) (bucket : ErrorRate) (v : Int)
    (hstop : stopCheck g plngFlipCount env.now = false)
    (hbucket : this.Data.get? g.mintRateIndex = some bucket)
    (hval : heap.get? pbigNum = some v) :
    BitFlip g heap this pbigNum plngFlipCount env
      = Except.ok
          { g := g
            heap := (heap.set pbigNum
                (SetBytes (flipLoop bucket.Rate env.draws (Bytes v) plngFlipCount).bytNum))
              ++ [U256 v,
                  SetBytes (flipLoop bucket.Rate env.draws (Bytes v) plngFlipCount).bytNum
                    - U256 v]
            this :=
              { Data := this.Data.set g.mintRateIndex
                  { bucket with
                    FlipData := bucket.FlipData ++
                      [recorded heap pbigNum plngFlipCount env bucket.Rate v] } }
            ret := pbigNum } := by
  have hp : pbigNum < heap.length := by
    rcases Nat.lt_or_ge pbigNum heap.length with h | h
    · exact h
    · rw [List.get?_eq_none.mpr h] at hval
      cases hval
  have hv : heap[pbigNum] = v := by
    rw [List.get?_eq_get hp] at hval
    simpa using hval
  simp only [BitFlip, hstop, hbucket, hval, recorded]
  simp [List.getD_eq_getElem?_getD, List.getElem?_append_left, hp, hv, List.set_append_left,
    List.getElem?_append_right, Nat.ne_of_lt hp, List.getElem?_set]

theorem get_set_same {α : Type} (l : List α) (i : Nat) (x y : α)
    (h : l.get? i = some y) : (l.set i x).get? i = some x := by
  have hi : i < l.length := by
    rcases Nat.lt_or_ge i l.length with h1 | h1
    · exact h1
    · rw [List.get?_eq_none.mpr h1] at h
      cases h
  simp [List.getElem?_set, hi]

theorem timeSub_mono (t1 t2 u : Int) (h : t1 ≤ t2) : timeSub t1 u ≤ timeSub t2 u := by
  unfold timeSub
  split_ifs <;> omega

theorem stopCheck_mono (g : Globals) (c1 c2 t1 t2 : Int) (hc : c1 ≤ c2) (ht : t1 ≤ t2)
    (h : stopCheck g c1 t1 = true) : stopCheck g c2 t2 = true := by
  have hm := timeSub_mono t1 t2 g.mtimStartTime ht
  simp only [stopCheck, timeSince, Bool.or_eq_true, decide_eq_true_eq] at h ⊢
  omega

theorem BitFlip_stopCheck (g : Globals) (heap : Heap) (this : Output) (pbigNum : Nat)
    (plngFlipCount : Int) (env : Env) (r : Result)
    (h : BitFlip g heap this pbigNum plngFlipCount env = Except.ok r) (c t : Int) :
    stopCheck r.g c t = stopCheck g c t := by
  unfold BitFlip at h
  split at h
  · simp only [Except.ok.injEq] at h
    subst h
    simp only [stopCheck]
    split <;> rfl
  · split at h
    · cases h
    · split at h
      · cases h
      · simp only [Except.ok.injEq] at h
        subst h
        rfl

theorem run_stopCheck (cs : List Call) :
    ∀ (s s2 : Prog), run s cs = Except.ok s2 →
      ∀ c t : Int, stopCheck s2.g c t = stopCheck s.g c t := by
  induction cs with
  | nil =>
    intro s s2 h c t
    simp only [run, Except.ok.injEq] at h
    subst h
    rfl
  | cons call cs ih =>
    intro s s2 h c t
    simp only [run] at h
    cases hstep : step s call with
    | error e => rw [hstep] at h; cases h
    | ok s1 =>
      rw [hstep] at h
      rw [ih s1 s2 h c t]
      unfold step at hstep
      cases hb : BitFlip s.g s.heap s.out call.pbigNum call.plngFlipCount call.env with
      | error e => rw [hb] at hstep; cases hstep
      | ok r =>
        rw [hb] at hstep
        simp only [Except.ok.injEq] at hstep
        subst hstep
        exact BitFlip_stopCheck _ _ _ _ _ _ r hb c t

theorem heap_get_ptr (heap : Heap) (p : Nat) (a x y : Int) (hp : p < heap.length) :
    ((heap.set p a) ++ [x, y]).get? p = some a := by
  rw [List.get?_eq_getElem?, List.getElem?_append_left (by simpa using hp)]
  simp [List.getElem?_set, hp]

theorem heap_get_prev (heap : Heap) (p : Nat) (a x y : Int) :
    ((heap.set p a) ++ [x, y]).get? heap.length = some x := by
  rw [List.get?_eq_getElem?, List.getElem?_append_right (by simp)]
  simp

theorem heap_get_delta (heap : Heap) (p : Nat) (a x y : Int) :
    ((heap.set p a) ++ [x, y]).get? (heap.length + 1) = some y := by
  rw [List.get?_eq_getElem?, List.getElem?_append_right (by simp)]
  simp

theorem lt_length_of_get {α : Type} (l : List α) (i : Nat) (y : α)
    (h : l.get? i = some y) : i < l.length := by
  rcases Nat.lt_or_ge i l.length with h1 | h1
  · exact h1
  · rw [List.get?_eq_none.mpr h1] at h
    cases h

theorem drawsApart_no_success (k : Nat) :
    trial rateHalf (drawsApart (2 * k)) (drawsApart (2 * k + 1)) = false := by
  have h0 : drawsApart (2 * k) = F64.fin false (1 / 4) := by
    simp [drawsApart]
  have h1 : drawsApart (2 * k + 1) = F64.fin false (3 / 4) := by
    simp [drawsApart, Nat.add_mod]
  rw [h0, h1]
  decide!

/-! ### The inputs of the evaluations are reachable -/

theorem gTime_eq :
    Initalize Globals.init t2026 "time" (TestCount.float64 (F64.fin false 1000))
        [rateOne] { Data := [] }
      = Except.ok { g := gTime, pOutput := oneBucket rateOne,
                    callerOutput := { Data := [] } } := by
  decide!

theorem gIter_eq :
    Initalize Globals.init t2026 "iteration" (TestCount.int 10)
        [rateHalf] { Data := [] }
      = Except.ok { g := gIter, pOutput := oneBucket rateHalf,
                    callerOutput := { Data := [] } } := by
  decide!

/-! ### The claims -/

/-- C1: in a fresh program configured by `Initalize("iteration", 10, ...)`, a
call with running flip count 0 is stopped by the code (the elapsed time since
the zero start time is not below the zero duration), although the flip count
does not exceed the iteration limit, so that the stopping check worded by the
specification does not signal stop. -/
theorem C1_stopCheck_ignores_mode :
    (Initalize Globals.init t2026 "iteration" (TestCount.int 10) [rateHalf]
        { Data := [] }).map
      (fun r => (stopCheck r.g 0 (t2026 + 1000000000),
                 specStop r.g 0 0 (t2026 + 1000000000)))
      = Except.ok (true, false) := by
  decide!

/-- C2: when the stopping check fires, `BitFlip` returns the pointer it was
given and leaves the heap and the `Output` as they were: the returned value
equals the input value, and no bucket gets an event. -/
theorem C2_stop_is_passthrough (g : Globals) (heap : Heap) (this : Output)
    (pbigNum : Nat) (plngFlipCount : Int) (env : Env)
    (hstop : stopCheck g plngFlipCount env.now = true) :
    ∃ r, BitFlip g heap this pbigNum plngFlipCount env = Except.ok r ∧
      r.ret = pbigNum ∧ r.heap = heap ∧ r.heap.get? r.ret = heap.get? pbigNum ∧
      r.this = this := by
  simp [BitFlip, hstop]

theorem C2_stop_is_passthrough_witness :
    stopCheck gTime 1 (envAt drawsHalf).now = true ∧
    ∃ r, BitFlip gTime [5] (oneBucket rateOne) 0 1 (envAt drawsHalf) = Except.ok r ∧
      r.ret = 0 ∧ r.heap = [5] ∧ r.heap.get? r.ret = [(5 : Int)].get? 0 ∧
      r.this = oneBucket rateOne :=
  ⟨by decide, C2_stop_is_passthrough gTime [5] (oneBucket rateOne) 0 1
    (envAt drawsHalf) (by decide)⟩

/-- C3: with rate 1 a call that is not stopped on the value 1 (one byte, 0x01)
records the indices 0, ..., 7 but leaves the byte 0x81 = 129: the byte is the
original XOR 0x80, not the original XOR 0xFF (which is 254), and the recorded
delta is 128. -/
theorem C3_rate_one_flips_top_bit_only :
    BitFlip gTime [1] (oneBucket rateOne) 0 0 (envAt drawsHalf)
      = Except.ok
          { g := gTime
            heap := [129, 1, 128]
            this :=
              { Data := [{ Rate := rateOne
                           FlipData :=
                             [{ IterationNum := 8
                                ErrorData :=
                                  { PreviousValue := 1
                                    PreviousByte := "01"
                                    IntBits := [0, 1, 2, 3, 4, 5, 6, 7]
                                    ErrorValue := 0
                                    ErrorByte := "81"
                                    DeltaValue := 2
                                    When := t2026 + 1000000001 } }] }] }
            ret := 0 }
      ∧ (1 : Nat) ^^^ 255 = 254 := by
  decide!

/-- C4: with rate 0 and draws that are all 0.5, both quotients of every trial
are the positive infinity, the trial succeeds, and the call on the value 1
returns 129 with the eight indices recorded. -/
theorem C4_rate_zero_flips :
    trial rateZero (drawsHalf 0) (drawsHalf 1) = true ∧
    BitFlip gTime [1] (oneBucket rateZero) 0 0 (envAt drawsHalf)
      = Except.ok
          { g := gTime
            heap := [129, 1, 128]
            this :=
              { Data := [{ Rate := rateZero
                           FlipData :=
                             [{ IterationNum := 8
                                ErrorData :=
                                  { PreviousValue := 1
                                    PreviousByte := "01"
                                    IntBits := [0, 1, 2, 3, 4, 5, 6, 7]
                                    ErrorValue := 0
                                    ErrorByte := "81"
                                    DeltaValue := 2
                                    When := t2026 + 1000000001 } }] }] }
            ret := 0 } := by
  decide!

/-- C5: after `Initalize("iteration", 10, [0.5, 1], out)` of a fresh program,
a call of `BitFlip` on an `Output` of two buckets on which the stopping check
fires leaves the cursor `mintRateIndex` at 0: `marrErrRates` is still empty. -/
theorem C5_cursor_does_not_advance :
    (Initalize Globals.init t2026 "iteration" (TestCount.int 10)
        [rateHalf, rateOne]
        { Data := [{ Rate := rateHalf, FlipData := [] },
                   { Rate := rateOne, FlipData := [] }] }).bind
      (fun i =>
        (BitFlip i.g [5]
          { Data := [{ Rate := rateHalf, FlipData := [] },
                     { Rate := rateOne, FlipData := [] }] }
          0 11 (envAt drawsHalf)).map
          (fun r => (i.g.mintRateIndex, i.g.marrErrRates,
                     stopCheck i.g 11 (envAt drawsHalf).now, r.g.mintRateIndex)))
      = Except.ok (0, [], true, 0) := by
  decide!

/-- C6 (amended): once the stopping check has fired on a call, every later
call of `BitFlip` (after any further calls, on any number and any `Output`)
whose running flip count is not below the one of the call that fired and
whose clock reading is not earlier is stopped too: it returns the pointer it
was given and leaves the heap and the `Output` as they were. -/
theorem C6_passthrough_after_stop (s1 : Prog) (fired : Call) (between : List Call)
    (s2 : Prog) (heap : Heap) (this : Output) (pbigNum : Nat) (plngFlipCount : Int)
    (env : Env)
    (hfired : stopCheck s1.g fired.plngFlipCount fired.env.now = true)
    (hrun : run s1 (fired :: between) = Except.ok s2)
    (hcount : fired.plngFlipCount ≤ plngFlipCount)
    (hclock : fired.env.now ≤ env.now) :
    ∃ r, BitFlip s2.g heap this pbigNum plngFlipCount env = Except.ok r ∧
      r.ret = pbigNum ∧ r.heap = heap ∧ r.this = this := by
  have h1 : stopCheck s2.g plngFlipCount env.now = true := by
    rw [run_stopCheck _ s1 s2 hrun]
    exact stopCheck_mono s1.g _ _ _ _ hcount hclock hfired
  simp [BitFlip, h1]

theorem C6_passthrough_after_stop_witness :
    stopCheck gTime 1 (envAt drawsHalf).now = true ∧
    run { g := gTime, heap := [1], out := oneBucket rateOne }
        [{ pbigNum := 0, plngFlipCount := 1, env := envAt drawsHalf }]
      = Except.ok { g := gTime, heap := [1], out := oneBucket rateOne } ∧
    (1 : Int) ≤ 2 ∧
    (envAt drawsHalf).now ≤ (envAt drawsHalf).now ∧
    ∃ r, BitFlip gTime [1] (oneBucket rateOne) 0 2 (envAt drawsHalf) = Except.ok r ∧
      r.ret = 0 ∧ r.heap = [1] ∧ r.this = oneBucket rateOne :=
  ⟨by decide, by decide!, by decide, by decide,
    C6_passthrough_after_stop { g := gTime, heap := [1], out := oneBucket rateOne }
      { pbigNum := 0, plngFlipCount := 1, env := envAt drawsHalf } []
      { g := gTime, heap := [1], out := oneBucket rateOne } [1] (oneBucket rateOne) 0 2
      (envAt drawsHalf) (by decide) (by decide!) (by decide) (by decide)⟩

/-- C6 (counterexample): with one bucket (of rate 1) the stopping check fires
on a first call, made with running flip count 1; the next call, made with
running flip count 0, is not stopped: it turns the value 1 into 129 and
records an event. -/
theorem C6_later_call_flips :
    stopCheck gTime 1 (envAt drawsHalf).now = true ∧
    run { g := gTime, heap := [1], out := oneBucket rateOne }
        [{ pbigNum := 0, plngFlipCount := 1, env := envAt drawsHalf }]
      = Except.ok { g := gTime, heap := [1], out := oneBucket rateOne } ∧
    (BitFlip gTime [1] (oneBucket rateOne) 0 0 (envAt drawsHalf)).map
        (fun r => (r.heap.get? r.ret, r.this.Data.map (fun b => b.FlipData.length)))
      = Except.ok (some 129, [1]) := by
  decide!

/-- C7: reassembling the bytes of a non-negative `v` gives `v` again, and a
call of `BitFlip` on `v` that is not stopped and in which no trial succeeds
returns the pointer it was given with the value `v` behind it, and appends to
the active bucket an event with no flipped bit whose after-value is `v`. -/
theorem C7_roundtrip_without_flip (v : Int) (g : Globals) (heap : Heap) (this : Output)
    (pbigNum : Nat) (plngFlipCount : Int) (env : Env) (bucket : ErrorRate)
    (hv : 0 ≤ v)
    (hstop : stopCheck g plngFlipCount env.now = false)
    (hbucket : this.Data.get? g.mintRateIndex = some bucket)
    (hval : heap.get? pbigNum = some v)
    (hnone : ∀ i < (Bytes v).length, ∀ j < 8,
      trial bucket.Rate (env.draws (2 * (i * 8 + j)))
        (env.draws (2 * (i * 8 + j) + 1)) = false) :
    SetBytes (Bytes v) = v ∧
    ∃ r e, BitFlip g heap this pbigNum plngFlipCount env = Except.ok r ∧
      r.ret = pbigNum ∧ r.heap.get? r.ret = some v ∧
      (r.this.Data.get? g.mintRateIndex).map (fun b => b.FlipData)
        = some (bucket.FlipData ++ [e]) ∧
      e.ErrorData.IntBits = [] ∧
      r.heap.get? e.ErrorData.ErrorValue = some v := by
  have hrt : SetBytes (Bytes v) = v := by
    rw [SetBytes_Bytes]
    omega
  have hp : pbigNum < heap.length := lt_length_of_get heap pbigNum v hval
  have hl := flipLoop_no_success bucket.Rate env.draws (Bytes v) plngFlipCount hnone
  refine ⟨hrt, _, recorded heap pbigNum plngFlipCount env bucket.Rate v,
    BitFlip_not_stopped g heap this pbigNum plngFlipCount env bucket v hstop hbucket hval,
    rfl, ?_, ?_, ?_, ?_⟩
  · show (_ ++ [_, _]).get? pbigNum = some v
    rw [heap_get_ptr heap pbigNum _ _ _ hp, hl, hrt]
  · show Option.map _ ((this.Data.set _ _).get? _) = _
    rw [get_set_same _ _ _ _ hbucket]
    rfl
  · show (flipLoop bucket.Rate env.draws (Bytes v) plngFlipCount).arrBits = []
    rw [hl]
  · show (_ ++ [_, _]).get? pbigNum = some v
    rw [heap_get_ptr heap pbigNum _ _ _ hp, hl, hrt]

theorem C7_roundtrip_without_flip_witness :
    (0 : Int) ≤ 258 ∧
    stopCheck gTime 0 (envAt drawsApart).now = false ∧
    (oneBucket rateHalf).Data.get? gTime.mintRateIndex = some (ErrorRate.mk rateHalf []) ∧
    [(258 : Int)].get? 0 = some 258 ∧
    (∀ i < (Bytes 258).length, ∀ j < 8,
      trial rateHalf ((envAt drawsApart).draws (2 * (i * 8 + j)))
        ((envAt drawsApart).draws (2 * (i * 8 + j) + 1)) = false) ∧
    SetBytes (Bytes 258) = 258 ∧
    ∃ r e, BitFlip gTime [258] (oneBucket rateHalf) 0 0 (envAt drawsApart) = Except.ok r ∧
      r.ret = 0 ∧ r.heap.get? r.ret = some 258 ∧
      (r.this.Data.get? gTime.mintRateIndex).map (fun b => b.FlipData)
        = some ((ErrorRate.mk rateHalf []).FlipData ++ [e]) ∧
      e.ErrorData.IntBits = [] ∧
      r.heap.get? e.ErrorData.ErrorValue = some 258 :=
  ⟨by decide, by decide, rfl, rfl, fun i _ j _ => drawsApart_no_success (i * 8 + j),
    C7_roundtrip_without_flip 258 gTime [258] (oneBucket rateHalf) 0 0 (envAt drawsApart)
      (ErrorRate.mk rateHalf []) (by decide) (by decide) rfl rfl
      (fun i _ j _ => drawsApart_no_success (i * 8 + j))⟩

/-- C8: `Initalize("iteration", 10, [0.5], out)` on an empty `out` appends the
bucket to its own copy of the struct; the `Output` of the caller still has no
bucket when the call returns. -/
theorem C8_caller_output_unchanged :
    (Initalize Globals.init t2026 "iteration" (TestCount.int 10) [rateHalf]
        { Data := [] }).map (fun i => (i.pOutput, i.callerOutput))
      = Except.ok (oneBucket rateHalf, { Data := [] }) := by
  decide!

/-- C9 (amended): a call of `BitFlip` on `v` that is not stopped records the
before-value `v mod 2^256`, the after-value read from the mutated bytes with no
reduction, and the delta after minus before; with no flipped bit the delta is
`|v| - v mod 2^256`, which is 0 when `0 ≤ v < 2^256`, `v - v mod 2^256` when
`2^256 ≤ v`, and `-v - v mod 2^256` when `v < 0`. -/
theorem C9_before_after_delta (v : Int) (g : Globals) (heap : Heap) (this : Output)
    (pbigNum : Nat) (plngFlipCount : Int) (env : Env) (bucket : ErrorRate)
    (hstop : stopCheck g plngFlipCount env.now = false)
    (hbucket : this.Data.get? g.mintRateIndex = some bucket)
    (hval : heap.get? pbigNum = some v) :
    ∃ r e, BitFlip g heap this pbigNum plngFlipCount env = Except.ok r ∧
      (r.this.Data.get? g.mintRateIndex).map (fun b => b.FlipData)
        = some (bucket.FlipData ++ [e]) ∧
      r.heap.get? e.ErrorData.PreviousValue = some (v % 2 ^ 256) ∧
      r.heap.get? e.ErrorData.ErrorValue
        = some (SetBytes (flipLoop bucket.Rate env.draws (Bytes v) plngFlipCount).bytNum) ∧
      e.ErrorData.ErrorByte
        = hexEncode (flipLoop bucket.Rate env.draws (Bytes v) plngFlipCount).bytNum ∧
      r.heap.get? e.ErrorData.DeltaValue
        = some (SetBytes (flipLoop bucket.Rate env.draws (Bytes v) plngFlipCount).bytNum
            - v % 2 ^ 256) ∧
      (e.ErrorData.IntBits = [] →
        r.heap.get? e.ErrorData.DeltaValue = some ((v.natAbs : Int) - v % 2 ^ 256) ∧
        (0 ≤ v → v < 2 ^ 256 → r.heap.get? e.ErrorData.DeltaValue = some 0) ∧
        (2 ^ 256 ≤ v → r.heap.get? e.ErrorData.DeltaValue = some (v - v % 2 ^ 256)) ∧
        (v < 0 → r.heap.get? e.ErrorData.DeltaValue = some (-v - v % 2 ^ 256))) := by
  have hp : pbigNum < heap.length := lt_length_of_get heap pbigNum v hval
  refine ⟨_, recorded heap pbigNum plngFlipCount env bucket.Rate v,
    BitFlip_not_stopped g heap this pbigNum plngFlipCount env bucket v hstop hbucket hval,
    ?_, ?_, ?_, rfl, ?_, ?_⟩
  · show Option.map _ ((this.Data.set _ _).get? _) = _
    rw [get_set_same _ _ _ _ hbucket]
    rfl
  · show (_ ++ [_, _]).get? heap.length = _
    rw [heap_get_prev]
    rfl
  · show (_ ++ [_, _]).get? pbigNum = _
    rw [heap_get_ptr heap pbigNum _ _ _ hp]
  · show (_ ++ [_, _]).get? (heap.length + 1) = _
    rw [heap_get_delta]
    rfl
  · intro hbits
    have hb : (flipLoop bucket.Rate env.draws (Bytes v) plngFlipCount).bytNum = Bytes v :=
      flipLoop_unflipped _ _ _ _ hbits
    have hd : ((heap.set pbigNum
        (SetBytes (flipLoop bucket.Rate env.draws (Bytes v) plngFlipCount).bytNum))
        ++ [U256 v, SetBytes (flipLoop bucket.Rate env.draws (Bytes v) plngFlipCount).bytNum
              - U256 v]).get? (heap.length + 1)
        = some ((v.natAbs : Int) - v % 2 ^ 256) := by
      rw [heap_get_delta, hb, SetBytes_Bytes]
      rfl
    refine ⟨hd, ?_, ?_, ?_⟩
    · intro h0 h1
      have e : (v.natAbs : Int) = v := by omega
      refine hd.trans ?_
      rw [Int.emod_eq_of_lt h0 h1, e, sub_self]
    · intro h2
      have h0 : 0 ≤ v := le_trans (by positivity) h2
      have e : (v.natAbs : Int) = v := by omega
      refine hd.trans ?_
      rw [e]
    · intro h3
      have e : (v.natAbs : Int) = -v := by omega
      refine hd.trans ?_
      rw [e]

theorem C9_before_after_delta_witness :
    stopCheck gTime 0 (envAt drawsHalf).now = false ∧
    (oneBucket rateOne).Data.get? gTime.mintRateIndex = some (ErrorRate.mk rateOne []) ∧
    [(2 : Int) ^ 256 + 1].get? 0 = some (2 ^ 256 + 1) ∧
    ∃ r e, BitFlip gTime [2 ^ 256 + 1] (oneBucket rateOne) 0 0 (envAt drawsHalf)
        = Except.ok r ∧
      (r.this.Data.get? gTime.mintRateIndex).map (fun b => b.FlipData)
        = some ((ErrorRate.mk rateOne []).FlipData ++ [e]) ∧
      r.heap.get? e.ErrorData.PreviousValue = some ((2 ^ 256 + 1) % 2 ^ 256) ∧
      r.heap.get? e.ErrorData.ErrorValue
        = some (SetBytes (flipLoop (ErrorRate.mk rateOne []).Rate (envAt drawsHalf).draws
            (Bytes (2 ^ 256 + 1)) 0).bytNum) ∧
      e.ErrorData.ErrorByte
        = hexEncode (flipLoop (ErrorRate.mk rateOne []).Rate (envAt drawsHalf).draws
            (Bytes (2 ^ 256 + 1)) 0).bytNum ∧
      r.heap.get? e.ErrorData.DeltaValue
        = some (SetBytes (flipLoop (ErrorRate.mk rateOne []).Rate (envAt drawsHalf).draws
            (Bytes (2 ^ 256 + 1)) 0).bytNum - (2 ^ 256 + 1) % 2 ^ 256) ∧
      (e.ErrorData.IntBits = [] →
        r.heap.get? e.ErrorData.DeltaValue
          = some ((((2 : Int) ^ 256 + 1).natAbs : Int) - (2 ^ 256 + 1) % 2 ^ 256) ∧
        ((0 : Int) ≤ 2 ^ 256 + 1 → (2 : Int) ^ 256 + 1 < 2 ^ 256 →
          r.heap.get? e.ErrorData.DeltaValue = some 0) ∧
        ((2 : Int) ^ 256 ≤ 2 ^ 256 + 1 →
          r.heap.get? e.ErrorData.DeltaValue
            = some ((2 ^ 256 + 1) - (2 ^ 256 + 1) % 2 ^ 256)) ∧
        ((2 : Int) ^ 256 + 1 < 0 →
          r.heap.get? e.ErrorData.DeltaValue
            = some (-(2 ^ 256 + 1) - (2 ^ 256 + 1) % 2 ^ 256))) :=
  ⟨by decide, rfl, rfl,
    C9_before_after_delta (2 ^ 256 + 1) gTime [2 ^ 256 + 1] (oneBucket rateOne) 0 0
      (envAt drawsHalf) (ErrorRate.mk rateOne []) (by decide) rfl rfl⟩

/-- C9 (counterexample): on the value -1, with no trial succeeding, the call
records no flipped bit, the after-value 1 and the delta `2 - 2^256`, which is
not `v - v mod 2^256 = -2^256`. -/
theorem C9_negative_input_delta :
    BitFlip gTime [-1] (oneBucket rateHalf) 0 0 (envAt drawsApart)
      = Except.ok
          { g := gTime
            heap := [1, 2 ^ 256 - 1, 2 - 2 ^ 256]
            this :=
              { Data := [{ Rate := rateHalf
                           FlipData :=
                             [{ IterationNum := 0
                                ErrorData :=
                                  { PreviousValue := 1
                                    PreviousByte :=
                                      "ffffffffffffffffffffffffffffffffffffffffffffffffffffffffffffffff"
                                    IntBits := []
                                    ErrorValue := 0
                                    ErrorByte := "01"
                                    DeltaValue := 2
                                    When := t2026 + 1000000001 } }] }] }
            ret := 0 } ∧
    (2 - 2 ^ 256 : Int) ≠ -1 - (-1) % 2 ^ 256 := by
  decide!

/-- C10: two calls of `BitFlip` that are not stopped, made one after the other
on the same number (rate 1, value 1, at heap index 0). After the first call
the recorded event has the after-value 129 (its `ErrorValue` is the pointer 0,
and the heap holds 129 there), the after-bytes "81" and the delta 128 (at heap
index 2); after the second call the heap holds 1 at index 0, so the first
event, still pointing there, has the after-value 1, with its after-bytes and
its delta as before. -/
theorem C10_recorded_after_value_changes :
    run { g := gTime, heap := [1], out := oneBucket rateOne }
        [{ pbigNum := 0, plngFlipCount := 0, env := envAt drawsHalf }]
      = Except.ok
          { g := gTime
            heap := [129, 1, 128]
            out :=
              { Data := [{ Rate := rateOne
                           FlipData :=
                             [{ IterationNum := 8
                                ErrorData :=
                                  { PreviousValue := 1
                                    PreviousByte := "01"
                                    IntBits := [0, 1, 2, 3, 4, 5, 6, 7]
                                    ErrorValue := 0
                                    ErrorByte := "81"
                                    DeltaValue := 2
                                    When := t2026 + 1000000001 } }] }] } } ∧
    run { g := gTime, heap := [1], out := oneBucket rateOne }
        [{ pbigNum := 0, plngFlipCount := 0, env := envAt drawsHalf },
         { pbigNum := 0, plngFlipCount := 0, env := envAt drawsHalf }]
      = Except.ok
          { g := gTime
            heap := [1, 1, 128, 129, -128]
            out :=
              { Data := [{ Rate := rateOne
                           FlipData :=
                             [{ IterationNum := 8
                                ErrorData :=
                                  { PreviousValue := 1
                                    PreviousByte := "01"
                                    IntBits := [0, 1, 2, 3, 4, 5, 6, 7]
                                    ErrorValue := 0
                                    ErrorByte := "81"
                                    DeltaValue := 2
                                    When := t2026 + 1000000001 } },
                              { IterationNum := 8
                                ErrorData :=
                                  { PreviousValue := 3
                                    PreviousByte := "81"
                                    IntBits := [0, 1, 2, 3, 4, 5, 6, 7]
                                    ErrorValue := 0
                                    ErrorByte := "01"
                                    DeltaValue := 4
                                    When := t2026 + 1000000001 } }] }] } } := by
  decide!

/-! ### Lemmas on the loop, the cursor and float64 -/

theorem wrapInt64_of_range (c : Int) (h1 : -(2 : Int) ^ 63 ≤ c) (h2 : c < 2 ^ 63) :
    wrapInt64 c = c := by
  unfold wrapInt64
  omega

theorem wrapInt64_succ (x : Int) : wrapInt64 (wrapInt64 x + 1) = wrapInt64 (x + 1) := by
  unfold wrapInt64
  omega

theorem flipLoop_count (decRate : F64) (draws : Nat → F64) (bytNum : List Nat) (c : Int)
    (h1 : -(2 : Int) ^ 63 ≤ c) (h2 : c < 2 ^ 63) :
    (flipLoop decRate draws bytNum c).plngFlipCount
      = wrapInt64 (c + (flipLoop decRate draws bytNum c).arrBits.length) := by
  unfold flipLoop
  apply foldl_invariant
    (fun s : LoopVars => s.plngFlipCount = wrapInt64 (c + s.arrBits.length))
  · intro s i hs
    unfold flipByte
    apply foldl_invariant
      (fun s : LoopVars => s.plngFlipCount = wrapInt64 (c + s.arrBits.length))
    · intro s j hs
      unfold flipStep
      split
      · simp only [List.length_append, List.length_singleton, Nat.cast_add, Nat.cast_one]
        rw [hs, wrapInt64_succ, add_assoc]
      · exact hs
    · exact hs
  · simp [wrapInt64_of_range c h1 h2]

theorem gMax_eq :
    ((Initalize Globals.init t2026 "iteration" (TestCount.int (2 ^ 63 - 1)) []
        { Data := [] }).bind
      (fun i1 => (Initalize i1.g t2026 "variable" (TestCount.int (2 ^ 63 - 1)) []
        { Data := [] }).bind
      (fun i2 => Initalize i2.g t2026 "time" (TestCount.float64 (F64.fin false 1000)) []
        { Data := [] })))
      = Except.ok { g := gMax, pOutput := { Data := [] }, callerOutput := { Data := [] } } := by
  decide!

theorem setLimit_cursor (g g1 : Globals) (now : Int) (pITestCount : TestCount)
    (h : setLimit g now pITestCount = Except.ok g1) :
    g1.marrErrRates = g.marrErrRates ∧ g1.mintRateIndex = g.mintRateIndex := by
  unfold setLimit at h
  split at h
  · split at h
    · simp only [Except.ok.injEq] at h
      subst h
      exact ⟨rfl, rfl⟩
    · cases h
  · split at h
    · split at h
      · simp only [Except.ok.injEq] at h
        subst h
        exact ⟨rfl, rfl⟩
      · cases h
    · split at h
      · simp only [Except.ok.injEq] at h
        subst h
        exact ⟨rfl, rfl⟩
      · cases h

theorem Initalize_cursor (g : Globals) (now : Int) (pstrTestType : String)
    (pITestCount : TestCount) (parrErrRates : List F64) (pOutput : Output)
    (i : InitalizeResult)
    (h : Initalize g now pstrTestType pITestCount parrErrRates pOutput = Except.ok i) :
    i.g.marrErrRates = g.marrErrRates ∧ i.g.mintRateIndex = g.mintRateIndex := by
  unfold Initalize at h
  split at h
  · cases h
  · rename_i g1 hg1
    simp only [Except.ok.injEq] at h
    subst h
    have h2 := setLimit_cursor { g with mstrTestType := pstrTestType } g1 now pITestCount hg1
    exact h2

theorem BitFlip_cursor (g : Globals) (heap : Heap) (this : Output) (pbigNum : Nat)
    (plngFlipCount : Int) (env : Env) (r : Result)
    (h : BitFlip g heap this pbigNum plngFlipCount env = Except.ok r) :
    r.g.marrErrRates = g.marrErrRates ∧
    g.mintRateIndex ≤ r.g.mintRateIndex ∧
    (g.mintRateIndex ≤ g.marrErrRates.length → r.g.mintRateIndex ≤ g.marrErrRates.length) := by
  unfold BitFlip at h
  split at h
  · simp only [Except.ok.injEq] at h
    subst h
    dsimp only
    split
    · refine ⟨rfl, Nat.le_succ _, fun _ => ?_⟩
      dsimp only
      omega
    · exact ⟨rfl, le_refl _, fun hle => hle⟩
  · split at h
    · cases h
    · split at h
      · cases h
      · simp only [Except.ok.injEq] at h
        subst h
        exact ⟨rfl, le_refl _, fun hle => hle⟩

theorem Reachable_cursor (g : Globals) (h : Reachable g) :
    g.marrErrRates = [] ∧ g.mintRateIndex = 0 := by
  induction h with
  | start => exact ⟨rfl, rfl⟩
  | initalize g now mode count rates out i _ hi ih =>
    have := Initalize_cursor g now mode count rates out i hi
    exact ⟨this.1.trans ih.1, this.2.trans ih.2⟩
  | bitFlip g heap this p c env r _ hr ih =>
    have hc := BitFlip_cursor g heap this p c env r hr
    refine ⟨hc.1.trans ih.1, ?_⟩
    have h1 := hc.2.2
    rw [ih.1, ih.2] at h1
    have h2 := h1 (le_refl _)
    simp at h2
    exact h2

theorem natLog2Aux_le (fuel : Nat) :
    ∀ (n k : Nat), n < 2 ^ (k + 1) → natLog2Aux fuel n ≤ k := by
  induction fuel with
  | zero => intro n k _; exact Nat.zero_le _
  | succ fuel ih =>
    intro n k hn
    unfold natLog2Aux
    split
    · rename_i h2
      cases k with
      | zero => omega
      | succ k =>
        have h3 : n / 2 < 2 ^ (k + 1) := by
          rw [Nat.div_lt_iff_lt_mul (by decide)]
          rw [pow_succ] at hn
          exact hn
        have := ih (n / 2) k h3
        omega
    · exact Nat.zero_le _

theorem roundEven_intCast (z : Int) : roundEven (z : ℚ) = z := by
  have hf : (z : ℚ).floor = z := by
    rw [Rat.floor_def', Rat.num_intCast, Rat.den_intCast]
    simp
  unfold roundEven
  simp only [hf]
  norm_num

theorem round_natCast (n : Nat) (hn : n < 2 ^ 53) :
    F64.round false (n : ℚ) = F64.fin false (n : ℚ) := by
  unfold F64.round
  by_cases h0 : (n : ℚ) = 0
  · simp [h0]
  · simp only [h0, if_false]
    have hlog : ilog2 (n : ℚ) ≤ 52 := by
      have h1 : natLog2 n ≤ 52 := natLog2Aux_le n n 52 hn
      have h2 : natLog2 1 = 0 := by decide
      unfold ilog2
      simp only [Rat.num_natCast, Rat.den_natCast, Int.natAbs_ofNat, h2]
      split <;> omega
    obtain ⟨k, hk⟩ : ∃ k : Nat, max (ilog2 (n : ℚ)) (-1022) - 52 = -(k : Int) := by
      refine ⟨(52 - max (ilog2 (n : ℚ)) (-1022)).toNat, ?_⟩
      have : max (ilog2 (n : ℚ)) (-1022) ≤ 52 := max_le hlog (by norm_num)
      omega
    have hpos : (0 : ℚ) < 2 ^ k := by positivity
    have hdiv : (n : ℚ) / (2 : ℚ) ^ (max (ilog2 (n : ℚ)) (-1022) - 52)
        = (((n * 2 ^ k : Nat) : Int) : ℚ) := by
      rw [hk, zpow_neg, zpow_natCast]
      push_cast
      field_simp
    have hr : ((roundEven ((n : ℚ) / (2 : ℚ) ^ (max (ilog2 (n : ℚ)) (-1022) - 52)) : Int) : ℚ)
        * (2 : ℚ) ^ (max (ilog2 (n : ℚ)) (-1022) - 52) = (n : ℚ) := by
      rw [hdiv, roundEven_intCast, hk, zpow_neg, zpow_natCast]
      push_cast
      field_simp
    simp only [hr]
    have hsmall : ¬ ((2 : ℚ) ^ (1024 : Int) ≤ (n : ℚ)) := by
      have h3 : (n : ℚ) < 2 ^ 53 := by exact_mod_cast hn
      have h4 : (2 : ℚ) ^ 53 ≤ (2 : ℚ) ^ (1024 : Int) := by
        have : (2 : ℚ) ^ (1024 : Int) = (2 : ℚ) ^ (1024 : Nat) := by
          rw [← zpow_natCast]; rfl
        rw [this]
        exact pow_le_pow_right₀ (by norm_num) (by norm_num)
      linarith
    simp [hsmall]

theorem foldl_range_invariant {α : Type} (P : Nat → α → Prop) (f : α → Nat → α) (s0 : α)
    (h0 : P 0 s0) :
    ∀ n : Nat, (∀ k s, k < n → P k s → P (k + 1) (f s k)) →
      P n ((List.range n).foldl f s0) := by
  intro n
  induction n with
  | zero => intro _; exact h0
  | succ n ih =>
    intro hstep
    rw [List.range_succ, List.foldl_append]
    exact hstep n _ (Nat.lt_succ_self n)
      (ih (fun k s hk hP => hstep k s (Nat.lt_succ_of_lt hk) hP))

theorem IncreasingBelow_mono (m1 m2 : Nat) (l : List Nat) (h : m1 ≤ m2)
    (hl : IncreasingBelow m1 l) : IncreasingBelow m2 l :=
  ⟨hl.1, fun x hx => lt_of_lt_of_le (hl.2 x hx) h⟩

theorem IncreasingBelow_append (m : Nat) (l : List Nat) (hl : IncreasingBelow m l) :
    IncreasingBelow (m + 1) (l ++ [m]) := by
  constructor
  · rw [List.pairwise_append]
    refine ⟨hl.1, List.pairwise_singleton _ _, ?_⟩
    intro a ha b hb
    rw [List.mem_singleton] at hb
    subst hb
    exact hl.2 a ha
  · intro x hx
    rw [List.mem_append, List.mem_singleton] at hx
    rcases hx with hx | hx
    · exact Nat.lt_succ_of_lt (hl.2 x hx)
    · subst hx
      exact Nat.lt_succ_self _

theorem flipByte_arrBits (decRate : F64) (draws : Nat → F64) (s : LoopVars) (i : Nat)
    (hs : IncreasingBelow (i * 8) s.arrBits) :
    IncreasingBelow ((i + 1) * 8) (flipByte decRate draws s i).arrBits := by
  unfold flipByte
  have h := foldl_range_invariant
    (fun j (t : LoopVars) => IncreasingBelow (i * 8 + j) t.arrBits)
    (flipStep decRate draws i (s.bytNum.getD i 0)) s hs 8
    (by
      intro j t _ ht
      unfold flipStep
      split
      · exact IncreasingBelow_append _ _ ht
      · exact IncreasingBelow_mono _ _ _ (Nat.le_succ _) ht)
  have e : (i + 1) * 8 = i * 8 + 8 := by ring
  rw [e]
  exact h

theorem flipLoop_arrBits (decRate : F64) (draws : Nat → F64) (bytNum : List Nat) (c : Int) :
    IncreasingBelow (bytNum.length * 8) (flipLoop decRate draws bytNum c).arrBits := by
  unfold flipLoop
  exact foldl_range_invariant
    (fun i (t : LoopVars) => IncreasingBelow (i * 8) t.arrBits)
    (flipByte decRate draws) _
    ⟨List.Pairwise.nil, fun x hx => by cases hx⟩ bytNum.length
    (fun i t _ ht => flipByte_arrBits decRate draws t i ht)

theorem lastSuccess_none (decRate : F64) (draws : Nat → F64) (i : Nat) :
    ∀ m : Nat,
      (∀ j < m, trial decRate (draws (2 * (i * 8 + j))) (draws (2 * (i * 8 + j) + 1)) = false) →
      lastSuccess decRate draws i m = none := by
  intro m
  induction m with
  | zero => intro _; rfl
  | succ m ih =>
    intro h
    unfold lastSuccess
    rw [h m (Nat.lt_succ_self m)]
    simp only [Bool.false_eq_true, if_false]
    exact ih (fun j hj => h j (Nat.lt_succ_of_lt hj))

theorem lastSuccess_some (decRate : F64) (draws : Nat → F64) (i jstar : Nat)
    (hsucc : trial decRate (draws (2 * (i * 8 + jstar))) (draws (2 * (i * 8 + jstar) + 1)) = true) :
    ∀ m : Nat, jstar < m →
      (∀ j, jstar < j → j < m →
        trial decRate (draws (2 * (i * 8 + j))) (draws (2 * (i * 8 + j) + 1)) = false) →
      lastSuccess decRate draws i m = some jstar := by
  intro m
  induction m with
  | zero => intro h; omega
  | succ m ih =>
    intro hm h
    unfold lastSuccess
    by_cases hjm : jstar = m
    · subst hjm
      rw [hsucc]
      simp
    · have hlt : jstar < m := by omega
      rw [h m hlt (Nat.lt_succ_self m)]
      simp only [Bool.false_eq_true, if_false]
      exact ih hlt (fun j h1 h2 => h j h1 (Nat.lt_succ_of_lt h2))

theorem lastSuccess_lt (decRate : F64) (draws : Nat → F64) (i : Nat) :
    ∀ (m j : Nat), lastSuccess decRate draws i m = some j → j < m := by
  intro m
  induction m with
  | zero => intro j h; cases h
  | succ m ih =>
    intro j h
    unfold lastSuccess at h
    split at h
    · simp only [Option.some.injEq] at h
      omega
    · exact Nat.lt_succ_of_lt (ih j h)

theorem flipByte_bytNum (decRate : F64) (draws : Nat → F64) (s : LoopVars) (i : Nat) :
    ∀ k : Nat, (flipByte decRate draws s i).bytNum[k]?
      = if i = k then
          (s.bytNum[k]?).map
            (fun _ => byteAfter (s.bytNum.getD i 0) (lastSuccess decRate draws i 8))
        else s.bytNum[k]? := by
  unfold flipByte
  apply foldl_range_invariant
    (fun j (t : LoopVars) => ∀ k : Nat, t.bytNum[k]?
      = if i = k then
          (s.bytNum[k]?).map
            (fun _ => byteAfter (s.bytNum.getD i 0) (lastSuccess decRate draws i j))
        else s.bytNum[k]?)
  · intro k
    by_cases hik : i = k
    · subst hik
      simp only [if_true, lastSuccess, byteAfter]
      cases h : s.bytNum[i]? with
      | none => rfl
      | some b => simp [h]
    · simp [hik]
  · intro j t _ ht k
    unfold flipStep
    split
    · rename_i hsucc
      simp only [List.getElem?_set', ht k]
      by_cases hik : i = k
      · subst hik
        simp only [if_true, lastSuccess, hsucc, byteAfter]
        cases s.bytNum[i]? <;> rfl
      · simp [hik]
    · rename_i hfail
      rw [ht k]
      simp only [lastSuccess, hfail]
      rfl

theorem flipLoop_bytNum (decRate : F64) (draws : Nat → F64) (bytNum : List Nat) (c : Int) :
    ∀ k : Nat, (flipLoop decRate draws bytNum c).bytNum[k]?
      = (bytNum[k]?).map (fun b => byteAfter b (lastSuccess decRate draws k 8)) := by
  have h := foldl_range_invariant
    (fun i (t : LoopVars) => ∀ k : Nat, t.bytNum[k]?
      = if k < i then (bytNum[k]?).map (fun b => byteAfter b (lastSuccess decRate draws k 8))
        else bytNum[k]?)
    (flipByte decRate draws)
    { plngFlipCount := c, arrBits := [], bytNum := bytNum }
    (fun k => by simp) bytNum.length
    (by
      intro i t _ ht k
      rw [flipByte_bytNum decRate draws t i k]
      by_cases hik : i = k
      · subst hik
        have hti : t.bytNum[i]? = bytNum[i]? := by
          rw [ht i]; simp
        simp only [if_true, Nat.lt_succ_self, hti, List.getD_eq_getElem?_getD]
        cases bytNum[i]? <;> rfl
      · simp only [hik, if_false]
        rw [ht k]
        have : (k < i + 1) ↔ (k < i) := by omega
        simp only [this])
  intro k
  have hk := h k
  unfold flipLoop
  rw [hk]
  split
  · rfl
  · rename_i hge
    rw [List.getElem?_eq_none (by omega)]
    rfl

theorem natBytesAux_lt (fuel : Nat) :
    ∀ (n : Nat) (acc : List Nat), (∀ b ∈ acc, b < 256) →
      ∀ b ∈ natBytesAux fuel n acc, b < 256 := by
  induction fuel with
  | zero => intro n acc h; exact h
  | succ fuel ih =>
    intro n acc h
    unfold natBytesAux
    split
    · exact h
    · apply ih
      intro b hb
      rw [List.mem_cons] at hb
      rcases hb with hb | hb
      · subst hb
        exact Nat.mod_lt _ (by decide)
      · exact h b hb

theorem Bytes_lt (v : Int) : ∀ b ∈ Bytes v, b < 256 :=
  natBytesAux_lt _ _ [] (fun b hb => by cases hb)

theorem byteAfter_some (b j : Nat) (hb : b < 256) (hj : j < 8) :
    byteAfter b (some j) = b ^^^ (1 <<< j) := by
  unfold byteAfter
  apply Nat.mod_eq_of_lt
  have h1 : (1 : Nat) <<< j < 2 ^ 8 := by
    rw [Nat.one_shiftLeft]
    exact Nat.pow_lt_pow_right (by decide) hj
  exact Nat.xor_lt_two_pow (by simpa using hb) h1

theorem flipLoop_length (decRate : F64) (draws : Nat → F64) (bytNum : List Nat) (c : Int) :
    (flipLoop decRate draws bytNum c).bytNum.length = bytNum.length := by
  unfold flipLoop
  apply foldl_invariant (fun s : LoopVars => s.bytNum.length = bytNum.length)
  · intro s i hs
    unfold flipByte
    apply foldl_invariant (fun s : LoopVars => s.bytNum.length = bytNum.length)
    · intro s j hs
      unfold flipStep
      split
      · simpa using hs
      · exact hs
    · exact hs
  · rfl

theorem flipLoop_lt (decRate : F64) (draws : Nat → F64) (bytNum : List Nat) (c : Int)
    (h : ∀ b ∈ bytNum, b < 256) :
    ∀ b ∈ (flipLoop decRate draws bytNum c).bytNum, b < 256 := by
  unfold flipLoop
  apply foldl_invariant (fun s : LoopVars => ∀ b ∈ s.bytNum, b < 256)
  · intro s i hs
    unfold flipByte
    apply foldl_invariant (fun s : LoopVars => ∀ b ∈ s.bytNum, b < 256)
    · intro s j hs
      unfold flipStep
      split
      · intro b hb
        rcases List.mem_or_eq_of_mem_set hb with hb | hb
        · exact hs b hb
        · subst hb
          exact Nat.mod_lt _ (by decide)
      · exact hs
    · exact hs
  · exact h

theorem foldl_bytes_lt (l : List Nat) :
    ∀ a : Nat, (∀ b ∈ l, b < 256) →
      l.foldl (fun acc b => acc * 256 + b) a + 1 ≤ (a + 1) * 256 ^ l.length := by
  induction l with
  | nil => intro a _; simp
  | cons b l ih =>
    intro a h
    have hb : b < 256 := h b (List.mem_cons_self b l)
    have h1 := ih (a * 256 + b) (fun x hx => h x (List.mem_cons_of_mem b hx))
    simp only [List.foldl_cons, List.length_cons]
    have h2 : (a * 256 + b + 1) * 256 ^ l.length ≤ ((a + 1) * 256) * 256 ^ l.length :=
      Nat.mul_le_mul_right _ (by omega)
    calc l.foldl (fun acc b => acc * 256 + b) (a * 256 + b) + 1
        ≤ (a * 256 + b + 1) * 256 ^ l.length := h1
      _ ≤ ((a + 1) * 256) * 256 ^ l.length := h2
      _ = (a + 1) * 256 ^ (l.length + 1) := by ring

theorem SetBytes_lt (l : List Nat) (h : ∀ b ∈ l, b < 256) :
    0 ≤ SetBytes l ∧ SetBytes l < 256 ^ l.length := by
  have h1 := foldl_bytes_lt l 0 h
  unfold SetBytes
  constructor
  · exact Int.natCast_nonneg _
  · have h2 : l.foldl (fun acc b => acc * 256 + b) 0 < 256 ^ l.length := by omega
    exact_mod_cast h2

theorem natBytesAux_zero (fuel : Nat) (acc : List Nat) : natBytesAux fuel 0 acc = acc := by
  cases fuel <;> simp [natBytesAux]

theorem natBytesAux_length_min (fuel : Nat) :
    ∀ (m : Nat) (acc : List Nat), m ≤ fuel → m ≠ 0 →
      acc.length + 1 ≤ (natBytesAux fuel m acc).length ∧
      256 ^ ((natBytesAux fuel m acc).length - acc.length - 1) ≤ m := by
  induction fuel with
  | zero => intro m acc h1 h2; omega
  | succ fuel ih =>
    intro m acc hm h0
    unfold natBytesAux
    simp only [h0, if_false]
    by_cases hq : m / 256 = 0
    · rw [hq, natBytesAux_zero]
      simp only [List.length_cons]
      refine ⟨le_refl _, ?_⟩
      have : acc.length + 1 - acc.length - 1 = 0 := by omega
      rw [this]
      simp only [pow_zero]
      omega
    · have hle : m / 256 ≤ fuel := by omega
      have h1 := ih (m / 256) (m % 256 :: acc) hle hq
      simp only [List.length_cons] at h1
      refine ⟨by omega, ?_⟩
      have e : (natBytesAux fuel (m / 256) (m % 256 :: acc)).length - acc.length - 1
          = ((natBytesAux fuel (m / 256) (m % 256 :: acc)).length - (acc.length + 1) - 1) + 1 := by
        omega
      rw [e, pow_succ]
      calc 256 ^ ((natBytesAux fuel (m / 256) (m % 256 :: acc)).length - (acc.length + 1) - 1) * 256
          ≤ (m / 256) * 256 := Nat.mul_le_mul_right _ h1.2
        _ ≤ m := Nat.div_mul_le_self m 256

theorem Bytes_length_le (v : Int) (h0 : 0 ≤ v) (h1 : v < 2 ^ 256) : (Bytes v).length ≤ 32 := by
  by_cases hz : v.natAbs = 0
  · unfold Bytes
    rw [hz, natBytesAux_zero]
    simp
  · have hmin := natBytesAux_length_min v.natAbs v.natAbs [] (le_refl _) hz
    have hlen : (Bytes v).length = (natBytesAux v.natAbs v.natAbs []).length := rfl
    simp only [List.length_nil, Nat.sub_zero] at hmin
    have hnat : v.natAbs < 2 ^ 256 := by
      have e : ((v.natAbs : Nat) : Int) = v := Int.natAbs_of_nonneg h0
      have : ((v.natAbs : Nat) : Int) < ((2 ^ 256 : Nat) : Int) := by
        rw [e]
        exact_mod_cast h1
      exact_mod_cast this
    by_contra hgt
    have h33 : 32 ≤ (natBytesAux v.natAbs v.natAbs []).length - 1 := by
      rw [hlen] at hgt
      omega
    have hpow : (256 : Nat) ^ 32 ≤ 256 ^ ((natBytesAux v.natAbs v.natAbs []).length - 1) :=
      Nat.pow_le_pow_right (by decide) h33
    have h256 : (256 : Nat) ^ 32 = 2 ^ 256 := by norm_num
    have := le_trans hpow hmin.2
    rw [h256] at this
    exact absurd hnat (not_lt.mpr this)

theorem pow_le_of_length_le (n : Nat) (h : n ≤ 32) : (256 : Int) ^ n ≤ 2 ^ 256 := by
  have h1 : (256 : Nat) ^ n ≤ 256 ^ 32 := Nat.pow_le_pow_right (by decide) h
  have h256 : (256 : Nat) ^ 32 = 2 ^ 256 := by norm_num
  rw [h256] at h1
  exact_mod_cast h1

/-! ### Lemmas on the float64 rounding of the duration -/

theorem natLog2Aux_spec (fuel : Nat) :
    ∀ n : Nat, n ≤ fuel →
      (1 ≤ n → 2 ^ natLog2Aux fuel n ≤ n) ∧ n < 2 ^ (natLog2Aux fuel n + 1) := by
  induction fuel with
  | zero =>
    intro n hn
    have h0 : n = 0 := by omega
    subst h0
    exact ⟨fun h => by omega, by simp [natLog2Aux]⟩
  | succ fuel ih =>
    intro n hn
    unfold natLog2Aux
    split
    · rename_i h2
      have h := ih (n / 2) (by omega)
      have hlow := h.1 (by omega)
      have hup := h.2
      constructor
      · intro _
        rw [pow_succ]
        omega
      · rw [pow_succ]
        omega
    · constructor
      · intro h1
        simpa using h1
      · simp only [zero_add, pow_one]
        omega

theorem ilog2_le (m : ℚ) (hm : 0 < m) : (2 : ℚ) ^ ilog2 m ≤ m := by
  by_cases h : (2 : ℚ) ^ ((natLog2 m.num.natAbs : Int) - (natLog2 m.den : Int)) ≤ m
  · have e : ilog2 m = (natLog2 m.num.natAbs : Int) - (natLog2 m.den : Int) := by
      unfold ilog2
      simp only [h, if_true]
    rw [e]
    exact h
  · have e : ilog2 m = (natLog2 m.num.natAbs : Int) - (natLog2 m.den : Int) - 1 := by
      unfold ilog2
      simp only [h, if_false]
    rw [e]
    have hnum : 0 < m.num := Rat.num_pos.mpr hm
    have hA := (natLog2Aux_spec m.num.natAbs m.num.natAbs (le_refl _)).1 (by omega)
    have hB := (natLog2Aux_spec m.den m.den (le_refl _)).2
    have hA' : (2 : ℚ) ^ (natLog2 m.num.natAbs) ≤ (m.num : ℚ) := by
      have e : ((m.num.natAbs : Nat) : ℚ) = (m.num : ℚ) := by
        have h0 : ((m.num.natAbs : Nat) : Int) = m.num := Int.natAbs_of_nonneg (le_of_lt hnum)
        calc ((m.num.natAbs : Nat) : ℚ) = (((m.num.natAbs : Nat) : Int) : ℚ) := by
              rw [Int.cast_natCast]
          _ = (m.num : ℚ) := by rw [h0]
      rw [← e]
      exact_mod_cast hA
    have hB' : (m.den : ℚ) ≤ (2 : ℚ) ^ (natLog2 m.den + 1) := by
      have : m.den ≤ 2 ^ (natLog2 m.den + 1) := le_of_lt hB
      exact_mod_cast this
    have hden : (0 : ℚ) < (m.den : ℚ) := by exact_mod_cast m.den_pos
    have hexp : ((natLog2 m.num.natAbs : Int) - (natLog2 m.den : Int) - 1)
        = ((natLog2 m.num.natAbs : Nat) : Int) - ((natLog2 m.den + 1 : Nat) : Int) := by
      push_cast
      ring
    rw [hexp, zpow_sub₀ (by norm_num : (2 : ℚ) ≠ 0), zpow_natCast, zpow_natCast]
    calc (2 : ℚ) ^ natLog2 m.num.natAbs / (2 : ℚ) ^ (natLog2 m.den + 1)
        ≤ (m.num : ℚ) / (2 : ℚ) ^ (natLog2 m.den + 1) :=
          div_le_div_of_nonneg_right hA' (by positivity)
      _ ≤ (m.num : ℚ) / (m.den : ℚ) :=
          div_le_div_of_nonneg_left (by exact_mod_cast le_of_lt hnum) hden hB'
      _ = m := Rat.num_div_den m

theorem rat_floor_spec (y : ℚ) : ((y.floor : Int) : ℚ) ≤ y ∧ y < ((y.floor : Int) : ℚ) + 1 := by
  have e : y.floor = ⌊y⌋ := (Rat.floor_def' y).trans Rat.floor_def.symm
  rw [e]
  exact ⟨Int.floor_le y, Int.lt_floor_add_one y⟩

theorem roundEven_abs (y : ℚ) : |((roundEven y : Int) : ℚ) - y| ≤ 1 / 2 := by
  have h := rat_floor_spec y
  unfold roundEven
  simp only []
  split
  · rename_i h1
    rw [abs_le]
    constructor <;> linarith
  · split
    · rename_i h1 h2
      push_cast
      rw [abs_le]
      constructor <;> linarith
    · rename_i h1 h2
      have h3 : y - ((y.floor : Int) : ℚ) = 1 / 2 := le_antisymm (not_lt.mp h2) (not_lt.mp h1)
      split
      · rw [abs_le]
        constructor <;> linarith
      · push_cast
        rw [abs_le]
        constructor <;> linarith

theorem roundEven_nonneg (y : ℚ) (hy : 0 ≤ y) : 0 ≤ roundEven y := by
  have hf : 0 ≤ y.floor := by
    have e : y.floor = ⌊y⌋ := (Rat.floor_def' y).trans Rat.floor_def.symm
    rw [e]
    exact Int.floor_nonneg.mpr hy
  unfold roundEven
  simp only []
  split
  · exact hf
  · split
    · omega
    · split <;> omega

theorem ulp_half_le (m : ℚ) (hm : 0 < m) :
    (2 : ℚ) ^ (max (ilog2 m) (-1022) - 52) / 2 ≤ m / 2 ^ 53 + 1 / 2 ^ 1075 := by
  have h2 : (2 : ℚ) ≠ 0 := by norm_num
  by_cases he : -1022 ≤ ilog2 m
  · rw [max_eq_left he, zpow_sub₀ h2]
    have hle := ilog2_le m hm
    have h52 : (2 : ℚ) ^ (52 : Int) = 2 ^ 52 := by norm_num
    rw [h52]
    have h1 : (2 : ℚ) ^ ilog2 m / 2 ^ 52 / 2 ≤ m / 2 ^ 53 := by
      rw [div_div]
      have e : (2 : ℚ) ^ 52 * 2 = 2 ^ 53 := by norm_num
      rw [e]
      exact div_le_div_of_nonneg_right hle (by positivity)
    have h3 : (0 : ℚ) ≤ 1 / 2 ^ 1075 := by positivity
    linarith
  · rw [max_eq_right (le_of_lt (not_le.mp he))]
    have e : (2 : ℚ) ^ ((-1022 : Int) - 52) / 2 = 1 / 2 ^ 1075 := by
      have e1 : ((-1022 : Int) - 52) = -((1074 : Nat) : Int) := by norm_num
      rw [e1, zpow_neg, zpow_natCast]
      rw [pow_succ (2 : ℚ) 1074]
      field_simp
    rw [e]
    have h3 : (0 : ℚ) ≤ m / 2 ^ 53 := by positivity
    linarith

theorem round_error (neg : Bool) (m : ℚ) (hm : 0 < m) :
    ∃ r : ℚ, 0 ≤ r ∧ |r - m| ≤ m / 2 ^ 53 + 1 / 2 ^ 1075 ∧
      F64.round neg m = if (2 : ℚ) ^ (1024 : Int) ≤ r then F64.inf neg else F64.fin neg r := by
  have hulp : (0 : ℚ) < (2 : ℚ) ^ (max (ilog2 m) (-1022) - 52) := by positivity
  refine ⟨((roundEven (m / (2 : ℚ) ^ (max (ilog2 m) (-1022) - 52)) : Int) : ℚ)
      * (2 : ℚ) ^ (max (ilog2 m) (-1022) - 52), ?_, ?_, ?_⟩
  · apply mul_nonneg _ (le_of_lt hulp)
    have := roundEven_nonneg (m / (2 : ℚ) ^ (max (ilog2 m) (-1022) - 52))
      (div_nonneg (le_of_lt hm) (le_of_lt hulp))
    exact_mod_cast this
  · have habs := roundEven_abs (m / (2 : ℚ) ^ (max (ilog2 m) (-1022) - 52))
    have e : ((roundEven (m / (2 : ℚ) ^ (max (ilog2 m) (-1022) - 52)) : Int) : ℚ)
          * (2 : ℚ) ^ (max (ilog2 m) (-1022) - 52) - m
        = (((roundEven (m / (2 : ℚ) ^ (max (ilog2 m) (-1022) - 52)) : Int) : ℚ)
            - m / (2 : ℚ) ^ (max (ilog2 m) (-1022) - 52))
          * (2 : ℚ) ^ (max (ilog2 m) (-1022) - 52) := by
      field_simp
    rw [e, abs_mul, abs_of_pos hulp]
    calc |((roundEven (m / (2 : ℚ) ^ (max (ilog2 m) (-1022) - 52)) : Int) : ℚ)
            - m / (2 : ℚ) ^ (max (ilog2 m) (-1022) - 52)|
          * (2 : ℚ) ^ (max (ilog2 m) (-1022) - 52)
        ≤ 1 / 2 * (2 : ℚ) ^ (max (ilog2 m) (-1022) - 52) :=
          mul_le_mul_of_nonneg_right habs (le_of_lt hulp)
      _ = (2 : ℚ) ^ (max (ilog2 m) (-1022) - 52) / 2 := by ring
      _ ≤ m / 2 ^ 53 + 1 / 2 ^ 1075 := ulp_half_le m hm
  · unfold F64.round
    simp only [ne_of_gt hm, if_false]

theorem mul_nanos (neg : Bool) (q : ℚ) :
    F64.mul (F64.fin neg q) (F64.fin false 1000000000)
      = F64.round neg (q * 1000000000) := by
  simp [F64.mul]

theorem toInt64_fin_in_range (neg : Bool) (r : ℚ) (h0 : 0 ≤ r) (h1 : r < 2 ^ 63) :
    F64.toInt64 (F64.fin neg r) = if neg then -(r.floor : Int) else (r.floor : Int) := by
  have hf := rat_floor_spec r
  have hlo : (0 : Int) ≤ r.floor := Rat.le_floor.mpr (by simpa using h0)
  have hhi : r.floor < (2 : Int) ^ 63 := by
    have : ((r.floor : Int) : ℚ) < (((2 : Int) ^ 63 : Int) : ℚ) := by
      push_cast
      linarith
    exact_mod_cast this
  unfold F64.toInt64
  cases neg
  · simp only [Bool.false_eq_true, if_false]
    rw [if_pos ⟨by omega, hhi⟩]
  · simp only [if_true]
    rw [if_pos ⟨by omega, by omega⟩]

theorem toInt64_fin_out_of_range (neg : Bool) (r : ℚ) (h : 2 ^ 63 + 1 ≤ r) :
    F64.toInt64 (F64.fin neg r) = -(2 : Int) ^ 63 := by
  have hlo : (2 : Int) ^ 63 + 1 ≤ r.floor := Rat.le_floor.mpr (by push_cast; linarith)
  unfold F64.toInt64
  cases neg
  · simp only [Bool.false_eq_true, if_false]
    rw [if_neg (fun hc => by omega)]
  · simp only [if_true]
    rw [if_neg (fun hc => by omega)]

theorem duration_in_range (neg : Bool) (q : ℚ) (hq : 0 ≤ q)
    (hp : q * 1000000000 < 2 ^ 63 - 2 ^ 10) :
    |((F64.toInt64 (F64.mul (F64.fin neg q) (F64.fin false 1000000000)) : Int) : ℚ)
        - F64.val neg (q * 1000000000)| < 1 + q * 1000000000 / 2 ^ 52 ∧
    (neg = false → 0 ≤ F64.toInt64 (F64.mul (F64.fin neg q) (F64.fin false 1000000000))) ∧
    (neg = true → F64.toInt64 (F64.mul (F64.fin neg q) (F64.fin false 1000000000)) ≤ 0) := by
  rw [mul_nanos]
  generalize hpdef : q * 1000000000 = p at hp
  have hp0 : 0 ≤ p := by rw [← hpdef]; positivity
  rcases eq_or_lt_of_le hp0 with hz | hpos
  · subst hz
    have e : F64.round neg 0 = F64.fin neg 0 := by simp [F64.round]
    rw [e, toInt64_fin_in_range neg 0 (le_refl _) (by norm_num)]
    have hf0 : (0 : ℚ).floor = 0 := by
      rw [Rat.floor_def']
      simp
    cases neg <;> simp [hf0, F64.val]
  · obtain ⟨r, hr0, herr, hround⟩ := round_error neg p hpos
    rw [abs_le] at herr
    have c1 : p / 2 ^ 53 < 2 ^ 10 - 1 / 2 ^ 43 := by
      have : p / 2 ^ 53 < (2 ^ 63 - 2 ^ 10) / 2 ^ 53 :=
        div_lt_div_of_pos_right hp (by positivity)
      have e : ((2 : ℚ) ^ 63 - 2 ^ 10) / 2 ^ 53 = 2 ^ 10 - 1 / 2 ^ 43 := by norm_num
      rw [e] at this
      exact this
    have c2 : (1 : ℚ) / 2 ^ 1075 ≤ 1 / 2 ^ 43 := by
      apply one_div_le_one_div_of_le (by positivity)
      exact pow_le_pow_right₀ (by norm_num) (by norm_num)
    have hr63 : r < 2 ^ 63 := by linarith [herr.2]
    have hsmall : ¬ ((2 : ℚ) ^ (1024 : Int) ≤ r) := by
      have h4 : (2 : ℚ) ^ 63 ≤ (2 : ℚ) ^ (1024 : Int) := by
        have : (2 : ℚ) ^ (1024 : Int) = (2 : ℚ) ^ (1024 : Nat) := by
          rw [← zpow_natCast]; rfl
        rw [this]
        exact pow_le_pow_right₀ (by norm_num) (by norm_num)
      intro hc
      linarith
    rw [hround, if_neg hsmall, toInt64_fin_in_range neg r hr0 hr63]
    have hf := rat_floor_spec r
    have hfl0 : (0 : Int) ≤ r.floor := Rat.le_floor.mpr (by simpa using hr0)
    have hfl0q : (0 : ℚ) ≤ ((r.floor : Int) : ℚ) := by exact_mod_cast hfl0
    have hbound : |((r.floor : Int) : ℚ) - p| < 1 + p / 2 ^ 52 := by
      have e52 : p / 2 ^ 52 = p / 2 ^ 53 + p / 2 ^ 53 := by
        have : (2 : ℚ) ^ 53 = 2 ^ 52 * 2 := by norm_num
        rw [this]
        field_simp
        ring
      by_cases hbig : 1 / 2 ^ 1022 ≤ p
      · have c3 : (1 : ℚ) / 2 ^ 1075 ≤ p / 2 ^ 53 := by
          have h5 : (1 : ℚ) / 2 ^ 1022 / 2 ^ 53 ≤ p / 2 ^ 53 :=
            div_le_div_of_nonneg_right hbig (by positivity)
          have e : (1 : ℚ) / 2 ^ 1022 / 2 ^ 53 = 1 / 2 ^ 1075 := by
            rw [div_div, ← pow_add]
          rw [e] at h5
          exact h5
        rw [abs_lt]
        constructor <;> linarith [herr.1, herr.2]
      · have hp1 : p < 1 / 2 ^ 1022 := not_le.mp hbig
        have c4 : (1 : ℚ) / 2 ^ 1022 ≤ 1 / 4 := by
          have : (1 : ℚ) / 4 = 1 / 2 ^ 2 := by norm_num
          rw [this]
          apply one_div_le_one_div_of_le (by positivity)
          exact pow_le_pow_right₀ (by norm_num) (by norm_num)
        have c5 : p / 2 ^ 53 ≤ p := div_le_self hp0 (one_le_pow₀ (by norm_num))
        have c6 : (1 : ℚ) / 2 ^ 1075 ≤ 1 / 4 := by
          have : (1 : ℚ) / 4 = 1 / 2 ^ 2 := by norm_num
          rw [this]
          apply one_div_le_one_div_of_le (by positivity)
          exact pow_le_pow_right₀ (by norm_num) (by norm_num)
        have hr1 : r < 1 := by linarith [herr.2]
        have hfl : r.floor = 0 := by
          have h6 : ((r.floor : Int) : ℚ) < ((1 : Int) : ℚ) := by
            push_cast
            linarith [hf.1]
          have h7 : r.floor < 1 := by exact_mod_cast h6
          omega
        rw [hfl]
        have hdiv : 0 ≤ p / 2 ^ 52 := by positivity
        rw [abs_lt]
        constructor <;> push_cast <;> linarith
    refine ⟨?_, ?_, ?_⟩
    · cases neg
      · simpa [F64.val] using hbound
      · simp only [if_true, F64.val]
        have e : (((-(r.floor : Int) : Int)) : ℚ) - -p = -(((r.floor : Int) : ℚ) - p) := by
          push_cast
          ring
        rw [e, abs_neg]
        exact hbound
    · intro hneg
      subst hneg
      simpa using hfl0
    · intro hneg
      subst hneg
      simp only [if_true]
      omega

theorem duration_out_of_range (neg : Bool) (q : ℚ)
    (hp : 2 ^ 63 + 2 ^ 11 ≤ q * 1000000000) :
    F64.toInt64 (F64.mul (F64.fin neg q) (F64.fin false 1000000000)) = -(2 : Int) ^ 63 := by
  rw [mul_nanos]
  generalize q * 1000000000 = p at hp
  have hpos : 0 < p := lt_of_lt_of_le (by positivity) hp
  obtain ⟨r, hr0, herr, hround⟩ := round_error neg p hpos
  rw [abs_le] at herr
  have c2 : (1 : ℚ) / 2 ^ 1075 ≤ 1 := by
    apply div_le_one_of_le₀ _ (by positivity)
    exact one_le_pow₀ (by norm_num)
  have c3 : (2 : ℚ) ^ 63 + 2 ^ 11 - (2 ^ 63 + 2 ^ 11) / 2 ^ 53 ≤ p - p / 2 ^ 53 := by
    have hc : (0 : ℚ) ≤ 1 - 1 / 2 ^ 53 := by norm_num
    have := mul_le_mul_of_nonneg_right hp hc
    have e1 : ((2 : ℚ) ^ 63 + 2 ^ 11) * (1 - 1 / 2 ^ 53)
        = 2 ^ 63 + 2 ^ 11 - (2 ^ 63 + 2 ^ 11) / 2 ^ 53 := by ring
    have e2 : p * (1 - 1 / 2 ^ 53) = p - p / 2 ^ 53 := by ring
    rw [e1, e2] at this
    exact this
  have c4 : (2 : ℚ) ^ 63 + 2 ≤ 2 ^ 63 + 2 ^ 11 - (2 ^ 63 + 2 ^ 11) / 2 ^ 53 := by norm_num
  have hr : 2 ^ 63 + 1 ≤ r := by linarith [herr.1]
  rw [hround]
  split
  · rfl
  · exact toInt64_fin_out_of_range neg r hr

theorem round_natCast_signed (neg : Bool) (n : Nat) (hn : n < 2 ^ 53) :
    F64.round neg (n : ℚ) = F64.fin neg (n : ℚ) := by
  by_cases h0 : (n : ℚ) = 0
  · simp [F64.round, h0]
  · have hf := round_natCast n hn
    unfold F64.round at hf ⊢
    simp only [h0, if_false] at hf ⊢
    split at hf
    · cases hf
    · rename_i hsmall
      simp only [F64.fin.injEq, true_and] at hf
      rw [if_neg hsmall, hf]

theorem toInt64_natCast_signed (neg : Bool) (n : Nat) (hn : n < 2 ^ 63) :
    F64.toInt64 (F64.fin neg (n : ℚ)) = if neg then -(n : Int) else (n : Int) := by
  have hf : (n : ℚ).floor = n := by
    rw [Rat.floor_def', Rat.num_natCast, Rat.den_natCast]
    simp
  rw [toInt64_fin_in_range neg (n : ℚ) (by positivity) (by exact_mod_cast hn), hf]

/-! ### The claims, continued -/

/-- C11: whatever text `json.MarshalIndent` produces without error,
`MarshalIndent` returns "err"; and when `json.MarshalIndent` fails (nil slice
and an error) `MarshalIndent` returns the empty string. -/
theorem C11_MarshalIndent_returns_err_on_success (text msg : String) (this : Output) :
    MarshalIndent (fun _ => { byt := text, err := none }) this = "err" ∧
    MarshalIndent (fun _ => { byt := "", err := some msg }) this = "" := by
  simp [MarshalIndent]

/-- C12 (amended): a call of `BitFlip` that is not stopped, entered with the
running flip count `c` (an `int`), records the iteration number `c` plus the
length of the recorded flipped-bit index list, wrapped to 64 bits; it is
exactly `c` plus that length when the sum is below `2^63`. -/
theorem C12_iteration_number (v : Int) (g : Globals) (heap : Heap) (this : Output)
    (pbigNum : Nat) (plngFlipCount : Int) (env : Env) (bucket : ErrorRate)
    (hstop : stopCheck g plngFlipCount env.now = false)
    (hbucket : this.Data.get? g.mintRateIndex = some bucket)
    (hval : heap.get? pbigNum = some v)
    (hlo : -(2 : Int) ^ 63 ≤ plngFlipCount) (hhi : plngFlipCount < 2 ^ 63) :
    ∃ r e, BitFlip g heap this pbigNum plngFlipCount env = Except.ok r ∧
      (r.this.Data.get? g.mintRateIndex).map (fun b => b.FlipData)
        = some (bucket.FlipData ++ [e]) ∧
      e.IterationNum = wrapInt64 (plngFlipCount + e.ErrorData.IntBits.length) ∧
      (plngFlipCount + e.ErrorData.IntBits.length < 2 ^ 63 →
        e.IterationNum = plngFlipCount + e.ErrorData.IntBits.length) := by
  have hcount := flipLoop_count bucket.Rate env.draws (Bytes v) plngFlipCount hlo hhi
  refine ⟨_, recorded heap pbigNum plngFlipCount env bucket.Rate v,
    BitFlip_not_stopped g heap this pbigNum plngFlipCount env bucket v hstop hbucket hval,
    ?_, hcount, ?_⟩
  · show Option.map _ ((this.Data.set _ _).get? _) = _
    rw [get_set_same _ _ _ _ hbucket]
    rfl
  · intro hsum
    refine hcount.trans ?_
    apply wrapInt64_of_range
    · have : (0 : Int) ≤ ((recorded heap pbigNum plngFlipCount env bucket.Rate v).ErrorData.IntBits.length : Int) :=
        Int.natCast_nonneg _
      show -(2 : Int) ^ 63 ≤ plngFlipCount + ((recorded heap pbigNum plngFlipCount env bucket.Rate v).ErrorData.IntBits.length : Int)
      omega
    · exact hsum

theorem C12_iteration_number_witness :
    stopCheck gTime 0 (envAt drawsHalf).now = false ∧
    (oneBucket rateOne).Data.get? gTime.mintRateIndex = some (ErrorRate.mk rateOne []) ∧
    [(1 : Int)].get? 0 = some 1 ∧
    -(2 : Int) ^ 63 ≤ 0 ∧ (0 : Int) < 2 ^ 63 ∧
    ∃ r e, BitFlip gTime [1] (oneBucket rateOne) 0 0 (envAt drawsHalf) = Except.ok r ∧
      (r.this.Data.get? gTime.mintRateIndex).map (fun b => b.FlipData)
        = some ((ErrorRate.mk rateOne []).FlipData ++ [e]) ∧
      e.IterationNum = wrapInt64 (0 + e.ErrorData.IntBits.length) ∧
      ((0 : Int) + e.ErrorData.IntBits.length < 2 ^ 63 →
        e.IterationNum = (0 : Int) + e.ErrorData.IntBits.length) :=
  ⟨by decide, rfl, rfl, by decide, by decide,
    C12_iteration_number 1 gTime [1] (oneBucket rateOne) 0 0 (envAt drawsHalf)
      (ErrorRate.mk rateOne []) (by decide) rfl rfl (by decide) (by decide)⟩

/-- C12 (counterexample): with both count limits at `2^63 - 1`, a call entered
with the running flip count `2^63 - 1` is not stopped; with rate 1 on the value
1 it records eight indices and the iteration number `-2^63 + 7`, which is not
`2^63 - 1 + 8`. -/
theorem C12_iteration_number_wraps :
    BitFlip gMax [1] (oneBucket rateOne) 0 (2 ^ 63 - 1) (envAt drawsHalf)
      = Except.ok
          { g := gMax
            heap := [129, 1, 128]
            this :=
              { Data := [{ Rate := rateOne
                           FlipData :=
                             [{ IterationNum := -2 ^ 63 + 7
                                ErrorData :=
                                  { PreviousValue := 1
                                    PreviousByte := "01"
                                    IntBits := [0, 1, 2, 3, 4, 5, 6, 7]
                                    ErrorValue := 0
                                    ErrorByte := "81"
                                    DeltaValue := 2
                                    When := t2026 + 1000000001 } }] }] }
            ret := 0 } ∧
    (-2 ^ 63 + 7 : Int) ≠ (2 ^ 63 - 1) + (([0, 1, 2, 3, 4, 5, 6, 7] : List Nat).length : Int) := by
  decide!

/-- C13: in every state reachable from the start of the program by calls of
`Initalize` and `BitFlip`, the cursor `mintRateIndex` is at most the length of
`marrErrRates` (the bound the code tests) and at most the number of buckets of
any `Output`, and a call of `BitFlip` that returns leaves a cursor that is not
below the one it found. -/
theorem C13_cursor_bounded_monotone (g : Globals) (hreach : Reachable g) :
    g.mintRateIndex ≤ g.marrErrRates.length ∧
    (∀ out : Output, g.mintRateIndex ≤ out.Data.length) ∧
    ∀ (heap : Heap) (this : Output) (pbigNum : Nat) (plngFlipCount : Int) (env : Env)
      (r : Result),
      BitFlip g heap this pbigNum plngFlipCount env = Except.ok r →
        g.mintRateIndex ≤ r.g.mintRateIndex ∧
        r.g.mintRateIndex ≤ r.g.marrErrRates.length ∧
        ∀ out : Output, r.g.mintRateIndex ≤ out.Data.length := by
  have h0 := Reachable_cursor g hreach
  refine ⟨by rw [h0.2]; exact Nat.zero_le _, fun out => by rw [h0.2]; exact Nat.zero_le _, ?_⟩
  intro heap this pbigNum plngFlipCount env r hr
  have h1 := Reachable_cursor r.g (Reachable.bitFlip g heap this pbigNum plngFlipCount env r hreach hr)
  exact ⟨(BitFlip_cursor g heap this pbigNum plngFlipCount env r hr).2.1,
    by rw [h1.2]; exact Nat.zero_le _, fun out => by rw [h1.2]; exact Nat.zero_le _⟩

theorem C13_cursor_bounded_monotone_witness :
    Reachable gTime ∧
    gTime.mintRateIndex ≤ gTime.marrErrRates.length ∧
    (∀ out : Output, gTime.mintRateIndex ≤ out.Data.length) ∧
    ∀ (heap : Heap) (this : Output) (pbigNum : Nat) (plngFlipCount : Int) (env : Env)
      (r : Result),
      BitFlip gTime heap this pbigNum plngFlipCount env = Except.ok r →
        gTime.mintRateIndex ≤ r.g.mintRateIndex ∧
        r.g.mintRateIndex ≤ r.g.marrErrRates.length ∧
        ∀ out : Output, r.g.mintRateIndex ≤ out.Data.length :=
  ⟨Reachable.initalize Globals.init t2026 "time" (TestCount.float64 (F64.fin false 1000))
      [rateOne] { Data := [] } _ Reachable.start gTime_eq,
    C13_cursor_bounded_monotone gTime
      (Reachable.initalize Globals.init t2026 "time" (TestCount.float64 (F64.fin false 1000))
        [rateOne] { Data := [] } _ Reachable.start gTime_eq)⟩

/-- C14 (amended): for every mode string other than "iteration" and "variable"
and every float64 number of seconds, `Initalize` returns with the start time
set to the instant of the call, the iteration and variable limits as they were,
and the duration set to the int64 conversion of the float64 product seconds x
10^9. When the magnitude of seconds x 10^9 is below `2^63 - 2^10` the duration
has the sign of the seconds and differs from seconds x 10^9 by less than
`1 + |seconds| x 10^9 / 2^52`; it is exactly seconds x 10^9 when that is a whole
number of magnitude below `2^53`. When that magnitude is at least
`2^63 + 2^11`, or the seconds are NaN or infinite, the duration is `-2^63`. -/
theorem C14_time_based_fallback (g : Globals) (now : Int) (pstrTestType : String)
    (x : F64) (parrErrRates : List F64) (pOutput : Output)
    (h1 : pstrTestType ≠ "iteration") (h2 : pstrTestType ≠ "variable") :
    ∃ i, Initalize g now pstrTestType (TestCount.float64 x) parrErrRates pOutput
        = Except.ok i ∧
      i.g.mstrTestType = pstrTestType ∧
      i.g.mtimStartTime = now ∧
      i.g.mlngIterations = g.mlngIterations ∧
      i.g.mlngVarsChanged = g.mlngVarsChanged ∧
      i.g.mdurNanoSeconds = F64.toInt64 (F64.mul x (F64.fin false 1000000000)) ∧
      (∀ (neg : Bool) (q : ℚ), x = F64.fin neg q → 0 ≤ q →
        (q * 1000000000 < 2 ^ 63 - 2 ^ 10 →
          |((i.g.mdurNanoSeconds : Int) : ℚ) - F64.val neg (q * 1000000000)|
            < 1 + q * 1000000000 / 2 ^ 52 ∧
          (neg = false → 0 ≤ i.g.mdurNanoSeconds) ∧
          (neg = true → i.g.mdurNanoSeconds ≤ 0)) ∧
        (∀ n : Nat, q * 1000000000 = n → n < 2 ^ 53 →
          i.g.mdurNanoSeconds = if neg then -(n : Int) else (n : Int)) ∧
        (2 ^ 63 + 2 ^ 11 ≤ q * 1000000000 → i.g.mdurNanoSeconds = -2 ^ 63)) ∧
      (x = F64.nan → i.g.mdurNanoSeconds = -2 ^ 63) ∧
      (∀ neg : Bool, x = F64.inf neg → i.g.mdurNanoSeconds = -2 ^ 63) := by
  refine ⟨_, by simp only [Initalize, setLimit, h1, h2, if_false]; rfl,
    rfl, rfl, rfl, rfl, rfl, ?_, ?_, ?_⟩
  · intro neg q hx hq
    subst hx
    refine ⟨fun hp => duration_in_range neg q hq hp, ?_, fun hp => duration_out_of_range neg q hp⟩
    intro n hn hlt
    show F64.toInt64 (F64.mul (F64.fin neg q) (F64.fin false 1000000000)) = _
    rw [mul_nanos, hn, round_natCast_signed neg n hlt]
    exact toInt64_natCast_signed neg n (lt_trans hlt (by norm_num))
  · intro hx
    subst hx
    rfl
  · intro neg hx
    subst hx
    rfl

theorem C14_time_based_fallback_witness :
    "timed" ≠ "iteration" ∧ "timed" ≠ "variable" ∧
    ∃ i, Initalize gIter t2026 "timed" (TestCount.float64 (F64.fin true (3 / 2)))
        [rateOne] (oneBucket rateHalf) = Except.ok i ∧
      i.g.mstrTestType = "timed" ∧
      i.g.mtimStartTime = t2026 ∧
      i.g.mlngIterations = gIter.mlngIterations ∧
      i.g.mlngVarsChanged = gIter.mlngVarsChanged ∧
      i.g.mdurNanoSeconds
        = F64.toInt64 (F64.mul (F64.fin true (3 / 2)) (F64.fin false 1000000000)) ∧
      (∀ (neg : Bool) (q : ℚ), F64.fin true (3 / 2) = F64.fin neg q → 0 ≤ q →
        (q * 1000000000 < 2 ^ 63 - 2 ^ 10 →
          |((i.g.mdurNanoSeconds : Int) : ℚ) - F64.val neg (q * 1000000000)|
            < 1 + q * 1000000000 / 2 ^ 52 ∧
          (neg = false → 0 ≤ i.g.mdurNanoSeconds) ∧
          (neg = true → i.g.mdurNanoSeconds ≤ 0)) ∧
        (∀ n : Nat, q * 1000000000 = n → n < 2 ^ 53 →
          i.g.mdurNanoSeconds = if neg then -(n : Int) else (n : Int)) ∧
        (2 ^ 63 + 2 ^ 11 ≤ q * 1000000000 → i.g.mdurNanoSeconds = -2 ^ 63)) ∧
      (F64.fin true (3 / 2) = F64.nan → i.g.mdurNanoSeconds = -2 ^ 63) ∧
      (∀ neg : Bool, F64.fin true (3 / 2) = F64.inf neg → i.g.mdurNanoSeconds = -2 ^ 63) :=
  ⟨by decide, by decide,
    C14_time_based_fallback gIter t2026 "timed" (F64.fin true (3 / 2)) [rateOne]
      (oneBucket rateHalf) (by decide) (by decide)⟩

/-- C14 (counterexample): `Initalize("time", 1e10, ...)` sets the duration to
`-2^63` nanoseconds, not to `10^10 x 10^9`: the float64 product `10^19` is out
of the range of int64. A call of `BitFlip` one second later, with running flip
count 0, is then stopped. -/
theorem C14_duration_out_of_range :
    (Initalize Globals.init t2026 "time" (TestCount.float64 (F64.fin false 10000000000))
        [rateOne] { Data := [] }).map
      (fun i => (i.g.mdurNanoSeconds, stopCheck i.g 0 (t2026 + 1000000000)))
      = Except.ok (-2 ^ 63, true) ∧
    (-2 ^ 63 : Int) ≠ 10000000000 * 10 ^ 9 := by
  decide!

/-- C15: with rate 0.5 and draws with which exactly the trials of bits 0 and 1
succeed, the call on the value 1 records the indices 0 and 1 and leaves the
byte 0x03: bit 0, although recorded, is not inverted. Inverting the recorded
bits of 0x01 gives 0x02. -/
theorem C15_recorded_bit_not_flipped :
    BitFlip gTime [1] (oneBucket rateHalf) 0 0 (envAt drawsTwoHits)
      = Except.ok
          { g := gTime
            heap := [3, 1, 2]
            this :=
              { Data := [{ Rate := rateHalf
                           FlipData :=
                             [{ IterationNum := 2
                                ErrorData :=
                                  { PreviousValue := 1
                                    PreviousByte := "01"
                                    IntBits := [0, 1]
                                    ErrorValue := 0
                                    ErrorByte := "03"
                                    DeltaValue := 2
                                    When := t2026 + 1000000001 } }] }] }
            ret := 0 } ∧
    flipRecorded (Bytes 1) [0, 1] = [2] := by
  decide!

/-- C16: a call of `BitFlip` that is not stopped, on a value whose serialization
has `n` bytes, records flipped-bit indices that are all below `8 n`, each of the
form byte index times 8 plus a bit offset below 8, in strictly increasing
order; on the value 0 it returns 0, records no index and the delta 0. -/
theorem C16_indices_increasing_in_range (v : Int) (g : Globals) (heap : Heap)
    (this : Output) (pbigNum : Nat) (plngFlipCount : Int) (env : Env) (bucket : ErrorRate)
    (hstop : stopCheck g plngFlipCount env.now = false)
    (hbucket : this.Data.get? g.mintRateIndex = some bucket)
    (hval : heap.get? pbigNum = some v) :
    ∃ r e, BitFlip g heap this pbigNum plngFlipCount env = Except.ok r ∧
      (r.this.Data.get? g.mintRateIndex).map (fun b => b.FlipData)
        = some (bucket.FlipData ++ [e]) ∧
      (∀ x ∈ e.ErrorData.IntBits,
        x < 8 * (Bytes v).length ∧
        ∃ i j, i < (Bytes v).length ∧ j < 8 ∧ x = i * 8 + j) ∧
      e.ErrorData.IntBits.Pairwise (fun a b => a < b) ∧
      (v = 0 →
        r.heap.get? r.ret = some 0 ∧ e.ErrorData.IntBits = [] ∧
        r.heap.get? e.ErrorData.DeltaValue = some 0) := by
  have hp : pbigNum < heap.length := lt_length_of_get heap pbigNum v hval
  have hinc := flipLoop_arrBits bucket.Rate env.draws (Bytes v) plngFlipCount
  refine ⟨_, recorded heap pbigNum plngFlipCount env bucket.Rate v,
    BitFlip_not_stopped g heap this pbigNum plngFlipCount env bucket v hstop hbucket hval,
    ?_, ?_, hinc.1, ?_⟩
  · show Option.map _ ((this.Data.set _ _).get? _) = _
    rw [get_set_same _ _ _ _ hbucket]
    rfl
  · intro x hx
    have hlt : x < (Bytes v).length * 8 := hinc.2 x hx
    refine ⟨by omega, x / 8, x % 8, ?_, Nat.mod_lt _ (by decide), ?_⟩
    · omega
    · omega
  · intro hv0
    subst hv0
    have hl : flipLoop bucket.Rate env.draws (Bytes 0) plngFlipCount
        = { plngFlipCount := plngFlipCount, arrBits := [], bytNum := [] } := rfl
    refine ⟨?_, ?_, ?_⟩
    · show (_ ++ [_, _]).get? pbigNum = some 0
      rw [heap_get_ptr heap pbigNum _ _ _ hp, hl]
      rfl
    · show (flipLoop bucket.Rate env.draws (Bytes 0) plngFlipCount).arrBits = []
      rw [hl]
    · show (_ ++ [_, _]).get? (heap.length + 1) = some 0
      rw [heap_get_delta, hl]
      simp [SetBytes, U256]

theorem C16_indices_increasing_in_range_witness :
    stopCheck gTime 0 (envAt drawsHalf).now = false ∧
    (oneBucket rateOne).Data.get? gTime.mintRateIndex = some (ErrorRate.mk rateOne []) ∧
    [(258 : Int)].get? 0 = some 258 ∧
    ∃ r e, BitFlip gTime [258] (oneBucket rateOne) 0 0 (envAt drawsHalf) = Except.ok r ∧
      (r.this.Data.get? gTime.mintRateIndex).map (fun b => b.FlipData)
        = some ((ErrorRate.mk rateOne []).FlipData ++ [e]) ∧
      (∀ x ∈ e.ErrorData.IntBits,
        x < 8 * (Bytes 258).length ∧
        ∃ i j, i < (Bytes 258).length ∧ j < 8 ∧ x = i * 8 + j) ∧
      e.ErrorData.IntBits.Pairwise (fun a b => a < b) ∧
      ((258 : Int) = 0 →
        r.heap.get? r.ret = some 0 ∧ e.ErrorData.IntBits = [] ∧
        r.heap.get? e.ErrorData.DeltaValue = some 0) :=
  ⟨by decide, rfl, rfl,
    C16_indices_increasing_in_range 258 gTime [258] (oneBucket rateOne) 0 0
      (envAt drawsHalf) (ErrorRate.mk rateOne []) (by decide) rfl rfl⟩

/-- C17: in a call of `BitFlip` that is not stopped, the bytes `result` the loop
leaves (those of the after-bytes and of the returned value) are as many as the
bytes of the input; byte `i` equals the original byte when no trial of that
byte succeeds, and the original byte XOR `1 << jstar` when `jstar` is the
highest bit offset of that byte whose trial succeeds; so each byte is the
original one or differs from it in one bit. -/
theorem C17_highest_success_only (v : Int) (g : Globals) (heap : Heap)
    (this : Output) (pbigNum : Nat) (plngFlipCount : Int) (env : Env) (bucket : ErrorRate)
    (hstop : stopCheck g plngFlipCount env.now = false)
    (hbucket : this.Data.get? g.mintRateIndex = some bucket)
    (hval : heap.get? pbigNum = some v) :
    ∃ r e result, BitFlip g heap this pbigNum plngFlipCount env = Except.ok r ∧
      (r.this.Data.get? g.mintRateIndex).map (fun b => b.FlipData)
        = some (bucket.FlipData ++ [e]) ∧
      e.ErrorData.ErrorByte = hexEncode result ∧
      r.heap.get? r.ret = some (SetBytes result) ∧
      result.length = (Bytes v).length ∧
      ∀ i b, (Bytes v).get? i = some b →
        ((∀ j < 8, trial bucket.Rate (env.draws (2 * (i * 8 + j)))
            (env.draws (2 * (i * 8 + j) + 1)) = false) →
          result.get? i = some b) ∧
        (∀ jstar < 8,
          trial bucket.Rate (env.draws (2 * (i * 8 + jstar)))
            (env.draws (2 * (i * 8 + jstar) + 1)) = true →
          (∀ j, jstar < j → j < 8 →
            trial bucket.Rate (env.draws (2 * (i * 8 + j)))
              (env.draws (2 * (i * 8 + j) + 1)) = false) →
          result.get? i = some (b ^^^ (1 <<< jstar))) ∧
        (result.get? i = some b ∨ ∃ j < 8, result.get? i = some (b ^^^ (1 <<< j))) := by
  have hp : pbigNum < heap.length := lt_length_of_get heap pbigNum v hval
  refine ⟨_, recorded heap pbigNum plngFlipCount env bucket.Rate v,
    (flipLoop bucket.Rate env.draws (Bytes v) plngFlipCount).bytNum,
    BitFlip_not_stopped g heap this pbigNum plngFlipCount env bucket v hstop hbucket hval,
    ?_, rfl, ?_, flipLoop_length _ _ _ _, ?_⟩
  · show Option.map _ ((this.Data.set _ _).get? _) = _
    rw [get_set_same _ _ _ _ hbucket]
    rfl
  · show (_ ++ [_, _]).get? pbigNum = _
    rw [heap_get_ptr heap pbigNum _ _ _ hp]
  · intro i b hb
    have hb256 : b < 256 := by
      rw [List.get?_eq_getElem?] at hb
      exact Bytes_lt v b (List.getElem?_mem hb)
    have hres : (flipLoop bucket.Rate env.draws (Bytes v) plngFlipCount).bytNum.get? i
        = some (byteAfter b (lastSuccess bucket.Rate env.draws i 8)) := by
      rw [List.get?_eq_getElem?, flipLoop_bytNum]
      rw [List.get?_eq_getElem?] at hb
      rw [hb]
      rfl
    refine ⟨?_, ?_, ?_⟩
    · intro hnone
      rw [hres, lastSuccess_none _ _ _ 8 hnone]
      rfl
    · intro jstar hj hsucc hlater
      rw [hres, lastSuccess_some _ _ _ jstar hsucc 8 hj hlater, byteAfter_some b jstar hb256 hj]
    · cases hls : lastSuccess bucket.Rate env.draws i 8 with
      | none =>
        left
        rw [hres, hls]
        rfl
      | some j =>
        right
        have hj := lastSuccess_lt _ _ _ 8 j hls
        exact ⟨j, hj, by rw [hres, hls, byteAfter_some b j hb256 hj]⟩

theorem C17_highest_success_only_witness :
    stopCheck gTime 0 (envAt drawsTwoHits).now = false ∧
    (oneBucket rateHalf).Data.get? gTime.mintRateIndex = some (ErrorRate.mk rateHalf []) ∧
    [(1 : Int)].get? 0 = some 1 ∧
    ∃ r e result, BitFlip gTime [1] (oneBucket rateHalf) 0 0 (envAt drawsTwoHits)
        = Except.ok r ∧
      (r.this.Data.get? gTime.mintRateIndex).map (fun b => b.FlipData)
        = some ((ErrorRate.mk rateHalf []).FlipData ++ [e]) ∧
      e.ErrorData.ErrorByte = hexEncode result ∧
      r.heap.get? r.ret = some (SetBytes result) ∧
      result.length = (Bytes 1).length ∧
      ∀ i b, (Bytes 1).get? i = some b →
        ((∀ j < 8, trial (ErrorRate.mk rateHalf []).Rate
            ((envAt drawsTwoHits).draws (2 * (i * 8 + j)))
            ((envAt drawsTwoHits).draws (2 * (i * 8 + j) + 1)) = false) →
          result.get? i = some b) ∧
        (∀ jstar < 8,
          trial (ErrorRate.mk rateHalf []).Rate
            ((envAt drawsTwoHits).draws (2 * (i * 8 + jstar)))
            ((envAt drawsTwoHits).draws (2 * (i * 8 + jstar) + 1)) = true →
          (∀ j, jstar < j → j < 8 →
            trial (ErrorRate.mk rateHalf []).Rate
              ((envAt drawsTwoHits).draws (2 * (i * 8 + j)))
              ((envAt drawsTwoHits).draws (2 * (i * 8 + j) + 1)) = false) →
          result.get? i = some (b ^^^ (1 <<< jstar))) ∧
        (result.get? i = some b ∨ ∃ j < 8, result.get? i = some (b ^^^ (1 <<< j))) :=
  ⟨by decide, rfl, rfl,
    C17_highest_success_only 1 gTime [1] (oneBucket rateHalf) 0 0 (envAt drawsTwoHits)
      (ErrorRate.mk rateHalf []) (by decide) rfl rfl⟩

/-- C18: a call of `BitFlip` on a non-negative `v` whose serialization has `n`
bytes (stopped, or with its active bucket in range) returns the pointer it was
given with a value that is non-negative and below `256^n`, hence below `2^256`
when `v` is; when the call is not stopped that value is also the after-value
of the recorded event. -/
theorem C18_result_below_width (v : Int) (g : Globals) (heap : Heap)
    (this : Output) (pbigNum : Nat) (plngFlipCount : Int) (env : Env)
    (hv : 0 ≤ v)
    (hval : heap.get? pbigNum = some v)
    (hin : stopCheck g plngFlipCount env.now = false →
      g.mintRateIndex < this.Data.length) :
    ∃ r w, BitFlip g heap this pbigNum plngFlipCount env = Except.ok r ∧
      r.ret = pbigNum ∧
      r.heap.get? r.ret = some w ∧
      0 ≤ w ∧ w < 256 ^ (Bytes v).length ∧
      (v < 2 ^ 256 → w < 2 ^ 256) ∧
      (stopCheck g plngFlipCount env.now = false →
        ∃ bucket e, this.Data.get? g.mintRateIndex = some bucket ∧
          (r.this.Data.get? g.mintRateIndex).map (fun b => b.FlipData)
            = some (bucket.FlipData ++ [e]) ∧
          r.heap.get? e.ErrorData.ErrorValue = some w) := by
  have hp : pbigNum < heap.length := lt_length_of_get heap pbigNum v hval
  cases hstop : stopCheck g plngFlipCount env.now with
  | true =>
    have hb := SetBytes_lt (Bytes v) (Bytes_lt v)
    rw [SetBytes_Bytes, Int.natAbs_of_nonneg hv] at hb
    refine ⟨_, v, by simp only [BitFlip, hstop, if_true]; rfl, rfl, hval, hv, hb.2,
      fun h => h, fun h => by cases h⟩
  | false =>
    have hidx := hin hstop
    obtain ⟨bucket, hbucket⟩ : ∃ bucket, this.Data.get? g.mintRateIndex = some bucket :=
      ⟨this.Data[g.mintRateIndex], by rw [List.get?_eq_getElem?, List.getElem?_eq_getElem hidx]⟩
    have hlt := SetBytes_lt (flipLoop bucket.Rate env.draws (Bytes v) plngFlipCount).bytNum
      (flipLoop_lt _ _ _ _ (Bytes_lt v))
    rw [flipLoop_length] at hlt
    have hheap : ((heap.set pbigNum
          (SetBytes (flipLoop bucket.Rate env.draws (Bytes v) plngFlipCount).bytNum))
          ++ [U256 v, SetBytes (flipLoop bucket.Rate env.draws (Bytes v) plngFlipCount).bytNum
                - U256 v]).get? pbigNum
        = some (SetBytes (flipLoop bucket.Rate env.draws (Bytes v) plngFlipCount).bytNum) :=
      heap_get_ptr heap pbigNum _ _ _ hp
    refine ⟨_, SetBytes (flipLoop bucket.Rate env.draws (Bytes v) plngFlipCount).bytNum,
      BitFlip_not_stopped g heap this pbigNum plngFlipCount env bucket v hstop hbucket hval,
      rfl, hheap, hlt.1, hlt.2, ?_, ?_⟩
    · intro h256
      exact lt_of_lt_of_le hlt.2 (pow_le_of_length_le _ (Bytes_length_le v hv h256))
    · intro _
      refine ⟨bucket, recorded heap pbigNum plngFlipCount env bucket.Rate v, hbucket, ?_, hheap⟩
      show Option.map _ ((this.Data.set _ _).get? _) = _
      rw [get_set_same _ _ _ _ hbucket]
      rfl

theorem C18_result_below_width_witness :
    (0 : Int) ≤ 258 ∧
    [(258 : Int)].get? 0 = some 258 ∧
    (stopCheck gTime 0 (envAt drawsHalf).now = false →
      gTime.mintRateIndex < (oneBucket rateOne).Data.length) ∧
    ∃ r w, BitFlip gTime [258] (oneBucket rateOne) 0 0 (envAt drawsHalf) = Except.ok r ∧
      r.ret = 0 ∧
      r.heap.get? r.ret = some w ∧
      0 ≤ w ∧ w < 256 ^ (Bytes 258).length ∧
      ((258 : Int) < 2 ^ 256 → w < 2 ^ 256) ∧
      (stopCheck gTime 0 (envAt drawsHalf).now = false →
        ∃ bucket e, (oneBucket rateOne).Data.get? gTime.mintRateIndex = some bucket ∧
          (r.this.Data.get? gTime.mintRateIndex).map (fun b => b.FlipData)
            = some (bucket.FlipData ++ [e]) ∧
          r.heap.get? e.ErrorData.ErrorValue = some w) :=
  ⟨by decide, rfl, fun _ => by decide,
    C18_result_below_width 258 gTime [258] (oneBucket rateOne) 0 0 (envAt drawsHalf)
      (by decide) rfl (fun _ => by decide)⟩

/-- C19: after `Initalize("time", 1000.0, [1], out)` on an `out` without
bucket, `out` still has no bucket, and a call of `BitFlip` on it one second
later, on which the stopping check does not fire, panics with an index out of
range. -/
theorem C19_index_out_of_range :
    (Initalize Globals.init t2026 "time" (TestCount.float64 (F64.fin false 1000))
        [rateOne] { Data := [] }).map
      (fun i => (i.callerOutput.Data.length, stopCheck i.g 0 (envAt drawsHalf).now,
                 BitFlip i.g [1] i.callerOutput 0 0 (envAt drawsHalf)))
      = Except.ok (0, false, Except.error Panic.indexOutOfRange) := by
  decide!

end EthBitFlip
